import Mathlib

/-!
Shallow embedding of the decentralized-sun-tzu-swarm simulation core.

Sources embedded here:
- `src/types.ts` : the data model (Drone, DroneStatus, Vector, LogEntry).
- `src/App.tsx` : the tick handler of the world simulation loop
  (`simulationInterval`), the stratagem application switch of
  `runDroneLogic`, and the `addLog` bounded journal.
- `src/unnamed/part_000` (the oracle client): `cleanAndParseJson`,
  `parseRetryDelay`, and the retry loop of `getGoogleAIAction`.

Numbers: the source uses JS floating-point numbers; positions and health are
embedded as rationals.  The source computes Euclidean distances with
`Math.sqrt`; the embedding passes the square-root function in as an explicit
parameter `sqrtF : ℚ → ℚ`, and theorems that depend on the value of a square
root carry the characterizing hypotheses (`0 ≤ r` and `r * r = dx*dx + dy*dy`)
for the inputs actually used.  Theorems that do not depend on the numeric value
of a distance hold for every `sqrtF`.
-/

/-- 2D vector, from `Vector` in `src/types.ts` (renamed: Lean already has a
`Vector` type). -/
structure Vec where
  x : ℚ
  y : ℚ
deriving DecidableEq, Repr

/-- `DroneStatus` from `src/types.ts`. -/
inductive DroneStatus where
  | Idle
  | Moving
  | Assessing
  | Executing
  | Attacking
  | Disabled
deriving DecidableEq, Repr

/-- `SwarmId` values `'blue' | 'red'` from `src/types.ts`. -/
inductive SwarmId where
  | blue
  | red
deriving DecidableEq, Repr

/-- `Drone` from `src/types.ts`. -/
structure Drone where
  id : String
  swarmId : SwarmId
  position : Vec
  status : DroneStatus
  targetPosition : Vec
  health : ℚ
  targetId : Option String
deriving DecidableEq, Repr

/-- `DRONE_SPEED` from `src/App.tsx`. -/
def DRONE_SPEED : ℚ := 1

/-- `DRONE_HEALTH` from `src/App.tsx`. -/
def DRONE_HEALTH : ℚ := 100

/-- `ATTACK_RANGE` from `src/App.tsx`. -/
def ATTACK_RANGE : ℚ := 75

/-- `ATTACK_DAMAGE` from `src/App.tsx`. -/
def ATTACK_DAMAGE : ℚ := 5

/-- Look a drone up by id, as `nextDronesState.get(id)` does on the tick
map in `src/App.tsx` (the map is keyed by `d.id`; with the roster's unique
ids this is the first list entry with that id). -/
def findDrone (ds : List Drone) (i : String) : Option Drone :=
  ds.find? (fun d => d.id = i)

/-- Apply an in-place field update to the drone(s) with the given id,
modelling a JS mutation of the object stored under that key. -/
def setDrone (ds : List Drone) (i : String) (f : Drone → Drone) : List Drone :=
  ds.map (fun d => if d.id = i then f d else d)

/-- JS truthiness of `drone.targetId` (`null` and the empty string are
falsy) in the tick handler's condition
`drone.status === DroneStatus.Attacking && drone.targetId`. -/
def truthyTarget : Option String → Option String
  | some t => if t = "" then none else some t
  | none => none

/-- Advance one `DRONE_SPEED` step along the vector `(dx, dy)` whose length
is `r`: the movement write
`drone.position.x += (dx / distance) * DRONE_SPEED` (and likewise `y`) of
both the Attacking and the Moving branch of the tick handler. -/
def moveToward (dx dy r : ℚ) (d : Drone) : Drone :=
  { d with position := ⟨d.position.x + dx / r * DRONE_SPEED,
                        d.position.y + dy / r * DRONE_SPEED⟩ }

/-- The in-range damage write
`target.health = Math.max(0, target.health - ATTACK_DAMAGE)`. -/
def damageDrone (t : Drone) : Drone :=
  { t with health := max 0 (t.health - ATTACK_DAMAGE) }

/-- The kill write `target.status = DroneStatus.Disabled`. -/
def disableDrone (t : Drone) : Drone :=
  { t with status := .Disabled }

/-- The attacker reset / invalid-target reset
`drone.status = Idle; drone.targetId = null`. -/
def standDown (d : Drone) : Drone :=
  { d with status := .Idle, targetId := none }

/-- The arrival write of the Moving branch:
`drone.position = drone.targetPosition; drone.status = Idle`. -/
def snapToTarget (d : Drone) : Drone :=
  { d with position := d.targetPosition, status := .Idle }

/-- `dx * dx + dy * dy` for the Attacking branch (`dx`, `dy` point from the
attacker to its target); the tick handler takes `Math.sqrt` of this. -/
def dist2 (drone target : Drone) : ℚ :=
  (target.position.x - drone.position.x) * (target.position.x - drone.position.x)
    + (target.position.y - drone.position.y) * (target.position.y - drone.position.y)

/-- `dx * dx + dy * dy` for the Moving branch (`dx`, `dy` point from the
drone to its recorded target position). -/
def moveDist2 (d : Drone) : ℚ :=
  (d.targetPosition.x - d.position.x) * (d.targetPosition.x - d.position.x)
    + (d.targetPosition.y - d.position.y) * (d.targetPosition.y - d.position.y)

/-- The `Attacking`-with-live-target body of the tick handler in
`src/App.tsx` (lines 305-324).  The JS consts `dx`, `dy`, `distance` are
inlined through `dist2` and the `sqrtF` parameter: out of attack range the
attacker advances by `DRONE_SPEED` along the normalized vector to the
target; in range the target takes `ATTACK_DAMAGE` clamped at 0, and when
its health reaches exactly 0 it is Disabled while the attacker reverts to
Idle with its target cleared. -/
def attackPhase (sqrtF : ℚ → ℚ) (ds : List Drone) (drone target : Drone) :
    List Drone :=
  if ATTACK_RANGE < sqrtF (dist2 drone target) then
    setDrone ds drone.id
      (moveToward (target.position.x - drone.position.x)
        (target.position.y - drone.position.y) (sqrtF (dist2 drone target)))
  else
    if max 0 (target.health - ATTACK_DAMAGE) = 0 then
      setDrone (setDrone (setDrone ds target.id damageDrone)
        target.id disableDrone) drone.id standDown
    else
      setDrone ds target.id damageDrone

/-- The `Moving` body of the tick handler in `src/App.tsx` (lines 330-342):
within `DRONE_SPEED` of the target position the drone snaps onto it and
reverts to Idle, otherwise it advances by `DRONE_SPEED` along the
normalized vector. -/
def movePhase (sqrtF : ℚ → ℚ) (ds : List Drone) (drone : Drone) : List Drone :=
  if sqrtF (moveDist2 drone) < DRONE_SPEED then
    setDrone ds drone.id snapToTarget
  else
    setDrone ds drone.id
      (moveToward (drone.targetPosition.x - drone.position.x)
        (drone.targetPosition.y - drone.position.y) (sqrtF (moveDist2 drone)))

/-- One iteration of the per-drone loop of the tick handler in
`src/App.tsx` (lines 298-343), for the drone currently stored under id
`did`.  Disabled drones are skipped; an Attacking drone with a truthy
`targetId` resolves its target (demoting to Idle and clearing the target
when the target is missing or Disabled); a Moving drone advances toward its
target position; all other statuses are untouched. -/
def processDrone (sqrtF : ℚ → ℚ) (ds : List Drone) (did : String) :
    List Drone :=
  match findDrone ds did with
  | none => ds
  | some drone =>
    if drone.status = .Disabled then ds
    else
      match (if drone.status = .Attacking then truthyTarget drone.targetId
             else none) with
      | some tid =>
        match findDrone ds tid with
        | some target =>
          if target.status = .Disabled then
            setDrone ds did standDown
          else
            attackPhase sqrtF ds drone target
        | none =>
          setDrone ds did standDown
      | none =>
        if drone.status = .Moving then movePhase sqrtF ds drone else ds

/-- One full world tick of `simulationInterval` in `src/App.tsx`: the
per-drone loop runs over the roster in map insertion order (the id list is
fixed when the tick starts; each iteration reads the then-current state).
The victory check that follows the loop reads but does not modify the
roster and is not embedded. -/
def tick (sqrtF : ℚ → ℚ) (ds : List Drone) : List Drone :=
  (ds.map Drone.id).foldl (processDrone sqrtF) ds

/-- `n` consecutive world ticks. -/
def tickN (sqrtF : ℚ → ℚ) : ℕ → List Drone → List Drone
  | 0, ds => ds
  | n + 1, ds => tickN sqrtF n (tick sqrtF ds)

/-- `LogType` from `src/types.ts`. -/
inductive LogType where
  | Info
  | Council
  | Stratagem
  | Error
  | Success
  | Attack
deriving DecidableEq, Repr

/-- `LogEntry` from `src/types.ts`. -/
structure LogEntry where
  id : String
  timestamp : String
  type : LogType
  message : String
  author : Option String
deriving DecidableEq, Repr

/-- JS `arr.slice(-n)`: the last `min n (length arr)` elements. -/
def jsSliceLast (n : ℕ) (l : List LogEntry) : List LogEntry :=
  l.drop (l.length - n)

/-- The state update of `addLog` in `src/App.tsx` (line 170):
`[...prev.slice(-100), entry]`. -/
def addLog (prev : List LogEntry) (e : LogEntry) : List LogEntry :=
  jsSliceLast 100 prev ++ [e]

/-- Action type tags of `IndividualStratagem.action.type` from the oracle
client (`src/unnamed/part_000`). -/
inductive ActionType where
  | MOVE
  | ATTACK
  | HOLD
deriving DecidableEq, Repr

/-- The `action` field of `IndividualStratagem`. -/
structure StratAction where
  type : ActionType
  target_id : Option String
  position : Option Vec
deriving DecidableEq, Repr

/-- `IndividualStratagem` from the oracle client (`src/unnamed/part_000`). -/
structure IndividualStratagem where
  stratagem_name : String
  justification : String
  action : StratAction
deriving DecidableEq, Repr

/-- The stratagem-application switch of `runDroneLogic` in `src/App.tsx`
(lines 221-245), folded into the drone's own record (the JS code issues the
same field updates through `updateDroneIntent`).  `enemySwarm` is the
opposing roster read after the oracle call returns; `none` stands for a
failed / unparseable oracle result. -/
def applyStratagem (enemySwarm : List Drone) (drone : Drone)
    (strat : Option IndividualStratagem) : Drone :=
  match strat with
  | none => { drone with status := .Idle }
  | some s =>
    match s.action.type with
    | .MOVE =>
      { drone with status := .Moving,
                   targetPosition := s.action.position.getD drone.position,
                   targetId := none }
    | .ATTACK =>
      let activeEnemiesNow := enemySwarm.filter (fun d => d.status ≠ .Disabled)
      match truthyTarget s.action.target_id with
      | some tid =>
        if activeEnemiesNow.any (fun e => e.id = tid) then
          { drone with status := .Attacking, targetId := some tid }
        else
          { drone with status := .Idle }
      | none => { drone with status := .Idle }
    | .HOLD => { drone with status := .Idle, targetId := none }

/-- The health invariant of the spec: every agent's health lies in
`[0, 100]`. -/
def healthBounds (ds : List Drone) : Prop :=
  ∀ d ∈ ds, 0 ≤ d.health ∧ d.health ≤ 100

/-- Sample square-root oracle for concrete runs: correct on the squared
distances that the sample scenarios produce. -/
def sampleSqrt : ℚ → ℚ :=
  fun q => if q = 40000 then 200 else if q = 2500 then 50 else 0

/-- Sample attacker for the out-of-range scenario of the spec
(position (100,100), attacking the enemy at (100,300)). -/
def sampleAttacker : Drone :=
  { id := "b-drone-0", swarmId := .blue, position := ⟨100, 100⟩,
    status := .Attacking, targetPosition := ⟨100, 100⟩, health := 100,
    targetId := some ("r-drone-0") }

/-- Sample enemy at (100,300) for the out-of-range scenario. -/
def sampleVictim : Drone :=
  { id := "r-drone-0", swarmId := .red, position := ⟨100, 300⟩,
    status := .Idle, targetPosition := ⟨100, 300⟩, health := 100,
    targetId := none }

/-- Sample in-range target with 5 health left (one hit from disablement),
50 units below `sampleAttacker`. -/
def sampleWounded : Drone :=
  { id := "r-drone-0", swarmId := .red, position := ⟨100, 150⟩,
    status := .Idle, targetPosition := ⟨100, 150⟩, health := 5,
    targetId := none }

/-- Sample Disabled drone. -/
def sampleDisabled : Drone :=
  { id := "r-drone-1", swarmId := .red, position := ⟨200, 300⟩,
    status := .Disabled, targetPosition := ⟨200, 300⟩, health := 0,
    targetId := none }

/-- Sample Moving drone whose target position equals its own position (the
state produced by a MOVE stratagem that carried no position). -/
def sampleMover : Drone :=
  { id := "b-drone-1", swarmId := .blue, position := ⟨300, 400⟩,
    status := .Moving, targetPosition := ⟨300, 400⟩, health := 100,
    targetId := none }

/-- Sample log entry. -/
def sampleEntry : LogEntry :=
  { id := "log-1", timestamp := "12:00:00", type := .Info, message := "m",
    author := none }

/-! ### String machinery for the oracle client (`src/unnamed/part_000`)

JS strings are embedded as `List Char`.  JS whitespace (for `trim`, and for
`\s` in the sanitizer's regexes) is modelled by its ASCII part. -/

/-- ASCII model of JS whitespace (space, tab, newline, carriage return,
vertical tab, form feed). -/
def isJsWs (c : Char) : Bool :=
  c = ' ' || c = '\t' || c = '\n' || c = '\r' || c = '\x0b' || c = '\x0c'

/-- JS `String.prototype.trim`: strip whitespace from both ends. -/
def jsTrim (s : List Char) : List Char :=
  ((s.dropWhile isJsWs).reverse.dropWhile isJsWs).reverse

/-- Split a string at the first occurrence of the pattern `p`: returns the
part before the occurrence and the part after it.  `none` when `p` does not
occur.  This models regex/`indexOf` scanning for a literal pattern. -/
def splitAtSub (p : List Char) : List Char → Option (List Char × List Char)
  | [] => if p.isEmpty then some ([], []) else none
  | c :: t =>
    if p.isPrefixOf (c :: t) then some ([], (c :: t).drop p.length)
    else
      match splitAtSub p t with
      | some (pre, post) => some (c :: pre, post)
      | none => none

/-- JS `String.prototype.includes` for a literal pattern. -/
def containsSub (p s : List Char) : Bool :=
  (splitAtSub p s).isSome

/-- The literal `<think>`. -/
def thinkOpen : List Char := String.toList "<think>"

/-- The literal `</think>`. -/
def thinkClose : List Char := String.toList "</think>"

/-- The literal fence marker. -/
def tripleTick : List Char := ['`', '`', '`']

/-- The literal tag `json` allowed after the opening fence. -/
def jsonTag : List Char := String.toList "json"

/-- One global pass of `replace(/<think>[\s\S]*?<\/think>/g, '')`, with
explicit fuel (the input length bounds the number of matches).  A match is
the earliest `<think>` followed by the earliest later `</think>`; with no
closing tag the lazy body never matches and the text is unchanged. -/
def removeThinkFuel : ℕ → List Char → List Char
  | 0, s => s
  | fuel + 1, s =>
    match splitAtSub thinkOpen s with
    | none => s
    | some (pre, post) =>
      match splitAtSub thinkClose post with
      | none => s
      | some (_, post2) => pre ++ removeThinkFuel fuel post2

/-- `cleanStr.replace(/<think>[\s\S]*?<\/think>/g, '')` from
`cleanAndParseJson`. -/
def removeThink (s : List Char) : List Char :=
  removeThinkFuel s.length s

/-- The fence regex `/\x60\x60\x60(?:json)?\s*([\s\S]*?)\s*\x60\x60\x60/`
of `cleanAndParseJson` followed by the source's `match[1].trim()`: find the
first fence marker, optionally skip a literal `json` tag, capture lazily up
to the next fence marker, and trim the capture.  An empty capture is falsy
in JS (`match && match[1]`), which sends the source down the no-fence
branch, so it is `none` here. -/
def extractFence (s : List Char) : Option (List Char) :=
  match splitAtSub tripleTick s with
  | none => none
  | some (_, afterOpen) =>
    match splitAtSub tripleTick
        (if jsonTag.isPrefixOf afterOpen then afterOpen.drop 4 else afterOpen) with
    | none => none
    | some (inner, _) =>
      if (jsTrim inner).isEmpty then none else some (jsTrim inner)

/-- The no-fence fallback of `cleanAndParseJson`: when a first `\x7b` and a
later last `\x7d` exist, keep the substring between them (inclusive),
otherwise leave the string unchanged. -/
def extractBraces (s : List Char) : List Char :=
  match List.findIdx? (fun c => c = '{') s,
      List.findIdx? (fun c => c = '}') s.reverse with
  | some fb, some rb =>
    let lb := s.length - 1 - rb
    if fb < lb then (s.drop fb).take (lb - fb + 1) else s
  | _, _ => s

/-- One left-to-right pass of `replace(/,\s*([}\]])/g, '$1')`, with explicit
fuel (the input length bounds the number of steps): a comma followed by
whitespace and a closing brace/bracket is dropped together with that
whitespace; everything else is copied. -/
def stripTCFuel : ℕ → List Char → List Char
  | 0, s => s
  | _, [] => []
  | fuel + 1, c :: rest =>
    if c = ',' then
      match rest.dropWhile isJsWs with
      | b :: rest2 =>
        if b = '}' || b = ']' then b :: stripTCFuel fuel rest2
        else c :: stripTCFuel fuel rest
      | [] => c :: stripTCFuel fuel rest
    else c :: stripTCFuel fuel rest

/-- `cleanStr.replace(/,\s*([}\]])/g, '$1')` from `cleanAndParseJson`. -/
def stripTrailingCommas (s : List Char) : List Char :=
  stripTCFuel s.length s

/-! ### A strict JSON parser modelling `JSON.parse` -/

/-- JSON values as produced by `JSON.parse` (numbers as rationals). -/
inductive Json where
  | null
  | bool (b : Bool)
  | num (q : ℚ)
  | str (s : List Char)
  | arr (xs : List Json)
  | obj (kvs : List (List Char × Json))

/-- JSON whitespace (`JSON.parse` accepts exactly these four). -/
def isJsonWs (c : Char) : Bool :=
  c = ' ' || c = '\t' || c = '\n' || c = '\r'

/-- Digit test. -/
def isDigit (c : Char) : Bool :=
  '0' ≤ c && c ≤ '9'

/-- Digit list to natural number. -/
def digitsToNat (ds : List Char) : ℕ :=
  ds.foldl (fun acc c => 10 * acc + (c.toNat - 48)) 0

/-- Parse a JSON number at the head of the input: optional minus, integer
part (`0` or a nonzero-led digit run), optional fraction, optional
exponent.  Returns the value and the rest of the input. -/
def parseJsonNumber (s : List Char) : Option (ℚ × List Char) :=
  let (neg, s1) := match s with
    | '-' :: t => (true, t)
    | _ => (false, s)
  let intDigits := s1.takeWhile isDigit
  if intDigits.isEmpty then none
  else if intDigits.length > 1 && intDigits.headD '0' = '0' then none
  else
    let s2 := s1.dropWhile isDigit
    let ipart : ℚ := (digitsToNat intDigits : ℚ)
    let (fpart, s3) := match s2 with
      | '.' :: t =>
        let fd := t.takeWhile isDigit
        if fd.isEmpty then (none, s2)
        else (some ((digitsToNat fd : ℚ) / ((10 : ℚ) ^ fd.length)),
          t.dropWhile isDigit)
      | _ => (some 0, s2)
    match fpart with
    | none => none
    | some f =>
      let (epart, s4) : Option ℤ × List Char := match s3 with
        | 'e' :: t => match t with
          | '+' :: t2 =>
            let ed := t2.takeWhile isDigit
            if ed.isEmpty then (none, s3)
            else (some (digitsToNat ed : ℤ), t2.dropWhile isDigit)
          | '-' :: t2 =>
            let ed := t2.takeWhile isDigit
            if ed.isEmpty then (none, s3)
            else (some (-(digitsToNat ed : ℤ)), t2.dropWhile isDigit)
          | _ =>
            let ed := t.takeWhile isDigit
            if ed.isEmpty then (none, s3)
            else (some (digitsToNat ed : ℤ), t.dropWhile isDigit)
        | 'E' :: t => match t with
          | '+' :: t2 =>
            let ed := t2.takeWhile isDigit
            if ed.isEmpty then (none, s3)
            else (some (digitsToNat ed : ℤ), t2.dropWhile isDigit)
          | '-' :: t2 =>
            let ed := t2.takeWhile isDigit
            if ed.isEmpty then (none, s3)
            else (some (-(digitsToNat ed : ℤ)), t2.dropWhile isDigit)
          | _ =>
            let ed := t.takeWhile isDigit
            if ed.isEmpty then (none, s3)
            else (some (digitsToNat ed : ℤ), t.dropWhile isDigit)
        | _ => (some 0, s3)
      match epart with
      | none => none
      | some e =>
        let mag : ℚ := (ipart + f) * (10 : ℚ) ^ e
        some (if neg then -mag else mag, s4)

/-- Parse a JSON string body after the opening quote; handles the standard
escapes.  Returns the characters and the rest of the input after the
closing quote.  Raw control characters are rejected as `JSON.parse` does. -/
def parseJsonString : List Char → Option (List Char × List Char)
  | [] => none
  | '"' :: t => some ([], t)
  | '\\' :: t =>
    match t with
    | [] => none
    | e :: t2 =>
      let esc : Option Char :=
        if e = '"' then some '"'
        else if e = '\\' then some '\\'
        else if e = '/' then some '/'
        else if e = 'b' then some '\x08'
        else if e = 'f' then some '\x0c'
        else if e = 'n' then some '\n'
        else if e = 'r' then some '\r'
        else if e = 't' then some '\t'
        else none
      match esc with
      | some c =>
        match parseJsonString t2 with
        | some (cs, rest) => some (c :: cs, rest)
        | none => none
      | none =>
        if e = 'u' then
          match t2 with
          | h1 :: h2 :: h3 :: h4 :: t3 =>
            let hexVal : Char → Option ℕ := fun c =>
              if isDigit c then some (c.toNat - 48)
              else if 'a' ≤ c && c ≤ 'f' then some (c.toNat - 87)
              else if 'A' ≤ c && c ≤ 'F' then some (c.toNat - 55)
              else none
            match hexVal h1, hexVal h2, hexVal h3, hexVal h4 with
            | some v1, some v2, some v3, some v4 =>
              match parseJsonString t3 with
              | some (cs, rest) =>
                some (Char.ofNat (4096 * v1 + 256 * v2 + 16 * v3 + v4) :: cs,
                  rest)
              | none => none
            | _, _, _, _ => none
          | _ => none
        else none
  | c :: t =>
    if c.toNat < 32 then none
    else
      match parseJsonString t with
      | some (cs, rest) => some (c :: cs, rest)
      | none => none

mutual

/-- Parse one JSON value at the head of the input (fuel-bounded recursive
descent; the top-level call supplies fuel larger than the input length). -/
def parseJsonVal : ℕ → List Char → Option (Json × List Char)
  | 0, _ => none
  | fuel + 1, s =>
    match s.dropWhile isJsonWs with
    | [] => none
    | c :: t =>
      if c = '{' then
        match t.dropWhile isJsonWs with
        | '}' :: t2 => some (.obj [], t2)
        | _ => parseJsonMembers fuel t []
      else if c = '[' then
        match t.dropWhile isJsonWs with
        | ']' :: t2 => some (.arr [], t2)
        | _ => parseJsonItems fuel t []
      else if c = '"' then
        match parseJsonString t with
        | some (cs, rest) => some (.str cs, rest)
        | none => none
      else if c = 't' then
        if (String.toList "rue").isPrefixOf t then some (.bool true, t.drop 3)
        else none
      else if c = 'f' then
        if (String.toList "alse").isPrefixOf t then some (.bool false, t.drop 4)
        else none
      else if c = 'n' then
        if (String.toList "ull").isPrefixOf t then some (.null, t.drop 3)
        else none
      else
        match parseJsonNumber (c :: t) with
        | some (q, rest) => some (.num q, rest)
        | none => none

/-- Parse the members of a JSON object after its opening brace (at least
one member follows). -/
def parseJsonMembers : ℕ → List Char → List (List Char × Json) →
    Option (Json × List Char)
  | 0, _, _ => none
  | fuel + 1, s, acc =>
    match s.dropWhile isJsonWs with
    | '"' :: t =>
      match parseJsonString t with
      | some (key, rest) =>
        match rest.dropWhile isJsonWs with
        | ':' :: t2 =>
          match parseJsonVal fuel t2 with
          | some (v, rest2) =>
            match rest2.dropWhile isJsonWs with
            | ',' :: t3 => parseJsonMembers fuel t3 (acc ++ [(key, v)])
            | '}' :: t3 => some (.obj (acc ++ [(key, v)]), t3)
            | _ => none
          | none => none
        | _ => none
      | none => none
    | _ => none

/-- Parse the items of a JSON array after its opening bracket (at least one
item follows). -/
def parseJsonItems : ℕ → List Char → List Json → Option (Json × List Char)
  | 0, _, _ => none
  | fuel + 1, s, acc =>
    match parseJsonVal fuel s with
    | some (v, rest) =>
      match rest.dropWhile isJsonWs with
      | ',' :: t => parseJsonItems fuel t (acc ++ [v])
      | ']' :: t => some (.arr (acc ++ [v]), t)
      | _ => none
    | none => none

end

/-- `JSON.parse`: parse one value and require only whitespace after it. -/
def parseJson (s : List Char) : Option Json :=
  match parseJsonVal (s.length + 1) s with
  | some (v, rest) => if (rest.dropWhile isJsonWs).isEmpty then some v else none
  | none => none

/-- Field lookup on a parsed JSON object (`undefined` is `none`). -/
def jsonGet (j : Json) (key : List Char) : Option Json :=
  match j with
  | .obj kvs =>
    match kvs.find? (fun kv => kv.1 = key) with
    | some kv => some kv.2
    | none => none
  | _ => none

/-- `cleanAndParseJson` from the oracle client (`src/unnamed/part_000`,
lines 58-89): trim; strip think-blocks; extract a fenced block when one is
present (falling back to first-`\x7b`-to-last-`\x7d` extraction otherwise);
strip trailing commas; `JSON.parse`.  A parse failure is `none` (the source
throws, and the thrown message is handled by the callers). -/
def cleanAndParseJson (s : List Char) : Option Json :=
  let c1 := jsTrim (removeThink (jsTrim s))
  let c2 := match extractFence c1 with
    | some inner => inner
    | none => extractBraces c1
  parseJson (stripTrailingCommas c2)

/-! ### The cloud-backend retry loop of `getGoogleAIAction` -/

/-- `MAX_RETRIES` from the oracle client. -/
def MAX_RETRIES : ℕ := 3

/-- Rate-limit classification:
`error.message.includes('429') || error.message.includes('RESOURCE_EXHAUSTED')`. -/
def isRateLimitError (msg : List Char) : Bool :=
  containsSub (String.toList "429") msg ||
    containsSub (String.toList "RESOURCE_EXHAUSTED") msg

/-- The anchored seconds pattern `(\d+(\.\d+)?)s` of `parseRetryDelay`
applied to the whole string, returning the seconds as a rational. -/
def parseSecondsString (s : List Char) : Option ℚ :=
  let ds := s.takeWhile isDigit
  if ds.isEmpty then none
  else
    match s.drop ds.length with
    | '.' :: rest =>
      let fs := rest.takeWhile isDigit
      if fs.isEmpty then none
      else
        match rest.drop fs.length with
        | ['s'] => some ((digitsToNat ds : ℚ) +
            (digitsToNat fs : ℚ) / (10 : ℚ) ^ fs.length)
        | _ => none
    | ['s'] => some ((digitsToNat ds : ℚ))
    | _ => none

/-- `parseRetryDelay` from the oracle client (lines 145-168): take the
message from its first `\x7b` to the end, `JSON.parse` it, find the
`RetryInfo` entry of `error.details`, and convert its `retryDelay` seconds
string to milliseconds.  Every failure (no brace, unparseable JSON, missing
or falsy field, non-string `retryDelay` — whose `.match` call would throw
into the surrounding catch — or a non-matching pattern) is `null`. -/
def parseRetryDelay (msg : List Char) : Option ℚ :=
  match splitAtSub ['{'] msg with
  | none => none
  | some (_, post) =>
    match parseJson ('{' :: post) with
    | none => none
    | some j =>
      match (jsonGet j (String.toList "error")).bind
          (fun e => jsonGet e (String.toList "details")) with
      | some (.arr ds) =>
        match ds.find? (fun d =>
            match jsonGet d (String.toList "@type") with
            | some (Json.str u) =>
              u = String.toList "type.googleapis.com/google.rpc.RetryInfo"
            | _ => false) with
        | some ri =>
          match jsonGet ri (String.toList "retryDelay") with
          | some (Json.str sdelay) =>
            if sdelay.isEmpty then none
            else (parseSecondsString sdelay).map (fun q => q * 1000)
          | _ => none
        | none => none
      | _ => none

/-- Outcome of one `ai.models.generateContent` attempt: the response text,
or a thrown error's message. -/
inductive Outcome where
  | ok (text : List Char)
  | err (msg : List Char)

/-- What a `getGoogleAIAction` call ultimately throws. -/
inductive Thrown where
  | fromAttempt (msg : List Char)
  | exceededMax
deriving DecidableEq, Repr

/-- Overall result of a `getGoogleAIAction` call. -/
inductive CallResult where
  | parsed (j : Json)
  | thrown (t : Thrown)

/-- A deterministic trace of one `getGoogleAIAction` call: its result, the
number of the attempt it ended on, and the waits slept between attempts. -/
structure RunResult where
  result : CallResult
  attempts : ℕ
  waits : List ℚ

/-- Stand-in for the message of the error thrown when `cleanAndParseJson`
fails (`Invalid JSON format after cleaning. Details: ...`; the details
suffix is irrelevant to the retry loop's classification). -/
def parseFailMsg : List Char := String.toList "Invalid JSON format after cleaning."

/-- The try-block of one attempt: `generateContent` then
`cleanAndParseJson` on the response text; either yields a value or throws a
message. -/
def attemptBody (o : Outcome) : Except (List Char) Json :=
  match o with
  | .ok text =>
    match cleanAndParseJson text with
    | some j => .ok j
    | none => .error parseFailMsg
  | .err m => .error m

/-- The retry loop of `getGoogleAIAction` (lines 190-236), with the attempt
outcomes and the per-attempt jitter draws
(`(Math.random() - 0.5) * 1000`) passed in as oracles.  `rem` counts the
remaining loop iterations (`MAX_RETRIES - attempt + 1` at entry); `rem = 0`
is the loop falling through to the `Exceeded max retries` throw. -/
def googleLoop (outcomes : ℕ → Outcome) (jit : ℕ → ℚ) :
    ℕ → ℕ → RunResult
  | 0, attempt => ⟨.thrown .exceededMax, attempt - 1, []⟩
  | rem + 1, attempt =>
    match attemptBody (outcomes attempt) with
    | .ok j => ⟨.parsed j, attempt, []⟩
    | .error m =>
      if isRateLimitError m = true ∧ attempt < MAX_RETRIES then
        let baseWaitMs : ℚ :=
          if attempt = 1 then (parseRetryDelay m).getD 2000
          else (2 : ℚ) ^ attempt * 1000
        let finalWaitMs := max 500 (baseWaitMs + jit attempt)
        let r := googleLoop outcomes jit rem (attempt + 1)
        ⟨r.result, r.attempts, finalWaitMs :: r.waits⟩
      else ⟨.thrown (.fromAttempt m), attempt, []⟩

/-- `getGoogleAIAction` as a function of the attempt outcomes and jitter
draws. -/
def getGoogleAIAction (outcomes : ℕ → Outcome) (jit : ℕ → ℚ) : RunResult :=
  googleLoop outcomes jit MAX_RETRIES 1

/-- A concrete rate-limit error message with no JSON payload. -/
def msg429 : List Char := String.toList "429 Too Many Requests"

/-- A concrete non-rate-limit error message. -/
def msgBoom : List Char := String.toList "something else went wrong"

/-- A concrete Google-style 429 message whose payload carries
`retryDelay: "27s"`. -/
def sampleRetryMsg : List Char :=
  String.toList ("got status: 429. " ++
    "\x7b\"error\":\x7b\"code\":429,\"message\":\"quota\",\"details\":" ++
    "[\x7b\"@type\":\"type.googleapis.com/google.rpc.RetryInfo\"," ++
    "\"retryDelay\":\"27s\"\x7d]\x7d\x7d")

/-- Fence-wrap a payload the way scenario strings in the spec are built. -/
def fenceWrap (s : List Char) : List Char :=
  String.toList "```json\n" ++ s ++ String.toList "\n```"

/-- Scenario 4 of the spec: fenced Stratagem JSON with a trailing comma. -/
def scen4 : List Char :=
  String.toList ("```json\n\x7b\"stratagem_name\":\"X\",\"justification\":" ++
    "\"Y\",\"action\":\x7b\"type\":\"HOLD\",\x7d\x7d\n```")

/-- Scenario 4's equivalent well-formed payload, unfenced and without the
trailing comma. -/
def scen4plain : List Char :=
  String.toList ("\x7b\"stratagem_name\":\"X\",\"justification\":\"Y\"," ++
    "\"action\":\x7b\"type\":\"HOLD\"\x7d\x7d")

/-- A well-formed Stratagem document whose justification contains a fence
marker. -/
def wBad : List Char :=
  String.toList ("\x7b\"stratagem_name\":\"X\",\"justification\":" ++
    "\"``` oops\",\"action\":\x7b\"type\":\"HOLD\"\x7d\x7d")

/-- `wBad` with a trailing comma inserted before its closing braces. -/
def wBadComma : List Char :=
  String.toList ("\x7b\"stratagem_name\":\"X\",\"justification\":" ++
    "\"``` oops\",\"action\":\x7b\"type\":\"HOLD\",\x7d\x7d")

/-- Scenario 4's payload split at the inserted trailing comma: the
well-formed document is `scen4pre ++ '\x7d' :: scen4post` (this is
`scen4plain`) and the fenced faulty payload of `scen4` is
`scen4pre ++ ',' :: '\x7d' :: scen4post` with the comma inserted before the
inner closing brace. -/
def scen4pre : List Char :=
  String.toList ("\x7b\"stratagem_name\":\"X\",\"justification\":\"Y\"," ++
    "\"action\":\x7b\"type\":\"HOLD\"")

/-- The part of `scen4plain` after the inner closing brace. -/
def scen4post : List Char := ['}']

/-- The action type of a sanitized oracle response document. -/
def actionTypeOf (s : List Char) : Option Json :=
  ((cleanAndParseJson s).bind
    (fun j => jsonGet j (String.toList "action"))).bind
    (fun a => jsonGet a (String.toList "type"))

/-! ### Basic lemmas about the roster operations -/

theorem setDrone_length (ds : List Drone) (i : String) (f : Drone → Drone) :
    (setDrone ds i f).length = ds.length := by
  simp [setDrone]

theorem idsOf_setDrone (ds : List Drone) (i : String) (f : Drone → Drone)
    (hf : ∀ d, (f d).id = d.id) :
    (setDrone ds i f).map Drone.id = ds.map Drone.id := by
  induction ds with
  | nil => rfl
  | cons d t ih =>
    simp only [setDrone, List.map] at ih ⊢
    by_cases h : d.id = i <;> simp [h, hf, ih]

theorem get_setDrone_ne (ds : List Drone) (i : String) (f : Drone → Drone)
    (k : ℕ) (hk : k < ds.length) (hk2 : k < (setDrone ds i f).length)
    (h : (ds.get ⟨k, hk⟩).id ≠ i) :
    (setDrone ds i f).get ⟨k, hk2⟩ = ds.get ⟨k, hk⟩ := by
  simp only [setDrone, List.get_eq_getElem, List.getElem_map]
  rw [if_neg]
  exact h

theorem findDrone_mem (ds : List Drone) (i : String) (d : Drone)
    (h : findDrone ds i = some d) : d ∈ ds ∧ d.id = i := by
  unfold findDrone at h
  have h1 := List.find?_some h
  have h2 := List.mem_of_find?_eq_some h
  simp at h1
  exact ⟨h2, h1⟩

theorem findDrone_setDrone_ne (ds : List Drone) (i j : String)
    (f : Drone → Drone) (hf : ∀ d, (f d).id = d.id) (h : i ≠ j) :
    findDrone (setDrone ds i f) j = findDrone ds j := by
  induction ds with
  | nil => rfl
  | cons d t ih =>
    simp only [setDrone, findDrone, List.map, List.find?] at ih ⊢
    by_cases hd : d.id = i
    · simp [hd, hf, h, ih]
    · by_cases hj : d.id = j
      · simp [hd, hj, Ne.symm h]
      · simp [hd, hj, ih]

theorem findDrone_setDrone_self (ds : List Drone) (i : String)
    (f : Drone → Drone) (hf : ∀ d, (f d).id = d.id) :
    findDrone (setDrone ds i f) i = (findDrone ds i).map f := by
  induction ds with
  | nil => rfl
  | cons d t ih =>
    simp only [setDrone, findDrone, List.map, List.find?] at ih ⊢
    by_cases hd : d.id = i
    · simp [hd, hf]
    · simp [hd, ih]

/-! ### Branch equations of the tick handler -/

theorem attackPhase_outOfRange (sqrtF : ℚ → ℚ) (ds : List Drone)
    (drone target : Drone) (r : ℚ)
    (hr : sqrtF (dist2 drone target) = r) (hrange : ATTACK_RANGE < r) :
    attackPhase sqrtF ds drone target =
      setDrone ds drone.id
        (moveToward (target.position.x - drone.position.x)
          (target.position.y - drone.position.y) r) := by
  unfold attackPhase
  rw [hr, if_pos hrange]

theorem attackPhase_inRange_noKill (sqrtF : ℚ → ℚ) (ds : List Drone)
    (drone target : Drone) (r : ℚ)
    (hr : sqrtF (dist2 drone target) = r) (hrange : ¬ ATTACK_RANGE < r)
    (hnk : max 0 (target.health - ATTACK_DAMAGE) ≠ 0) :
    attackPhase sqrtF ds drone target = setDrone ds target.id damageDrone := by
  unfold attackPhase
  rw [hr, if_neg hrange, if_neg hnk]

theorem attackPhase_inRange_kill (sqrtF : ℚ → ℚ) (ds : List Drone)
    (drone target : Drone) (r : ℚ)
    (hr : sqrtF (dist2 drone target) = r) (hrange : ¬ ATTACK_RANGE < r)
    (hk : max 0 (target.health - ATTACK_DAMAGE) = 0) :
    attackPhase sqrtF ds drone target =
      setDrone (setDrone (setDrone ds target.id damageDrone)
        target.id disableDrone) drone.id standDown := by
  unfold attackPhase
  rw [hr, if_neg hrange, if_pos hk]

theorem movePhase_snap (sqrtF : ℚ → ℚ) (ds : List Drone) (drone : Drone)
    (r : ℚ)
    (hr : sqrtF (moveDist2 drone) = r) (hclose : r < DRONE_SPEED) :
    movePhase sqrtF ds drone = setDrone ds drone.id snapToTarget := by
  unfold movePhase
  rw [hr, if_pos hclose]

theorem movePhase_advance (sqrtF : ℚ → ℚ) (ds : List Drone) (drone : Drone)
    (r : ℚ)
    (hr : sqrtF (moveDist2 drone) = r) (hfar : ¬ r < DRONE_SPEED) :
    movePhase sqrtF ds drone =
      setDrone ds drone.id
        (moveToward (drone.targetPosition.x - drone.position.x)
          (drone.targetPosition.y - drone.position.y) r) := by
  unfold movePhase
  rw [hr, if_neg hfar]

theorem processDrone_absent (sqrtF : ℚ → ℚ) (ds : List Drone) (did : String)
    (h1 : findDrone ds did = none) : processDrone sqrtF ds did = ds := by
  unfold processDrone
  rw [h1]

theorem processDrone_disabledSelf (sqrtF : ℚ → ℚ) (ds : List Drone)
    (did : String) (drone : Drone) (h1 : findDrone ds did = some drone)
    (h2 : drone.status = .Disabled) : processDrone sqrtF ds did = ds := by
  unfold processDrone
  rw [h1]
  simp [h2]

theorem processDrone_attack_live (sqrtF : ℚ → ℚ) (ds : List Drone)
    (did : String) (drone : Drone) (tid : String) (target : Drone)
    (h1 : findDrone ds did = some drone) (h2 : drone.status = .Attacking)
    (h3 : drone.targetId = some tid) (h4 : tid ≠ "")
    (h5 : findDrone ds tid = some target) (h6 : target.status ≠ .Disabled) :
    processDrone sqrtF ds did = attackPhase sqrtF ds drone target := by
  unfold processDrone
  rw [h1]
  simp [h2, truthyTarget, h3, h4, h5, h6]

theorem processDrone_attack_missingTarget (sqrtF : ℚ → ℚ) (ds : List Drone)
    (did : String) (drone : Drone) (tid : String)
    (h1 : findDrone ds did = some drone) (h2 : drone.status = .Attacking)
    (h3 : drone.targetId = some tid) (h4 : tid ≠ "")
    (h5 : findDrone ds tid = none) :
    processDrone sqrtF ds did = setDrone ds did standDown := by
  unfold processDrone
  rw [h1]
  simp [h2, truthyTarget, h3, h4, h5]

theorem processDrone_attack_disabledTarget (sqrtF : ℚ → ℚ) (ds : List Drone)
    (did : String) (drone : Drone) (tid : String) (target : Drone)
    (h1 : findDrone ds did = some drone) (h2 : drone.status = .Attacking)
    (h3 : drone.targetId = some tid) (h4 : tid ≠ "")
    (h5 : findDrone ds tid = some target) (h6 : target.status = .Disabled) :
    processDrone sqrtF ds did = setDrone ds did standDown := by
  unfold processDrone
  rw [h1]
  simp [h2, truthyTarget, h3, h4, h5, h6]

theorem processDrone_attack_falsyTarget (sqrtF : ℚ → ℚ) (ds : List Drone)
    (did : String) (drone : Drone)
    (h1 : findDrone ds did = some drone) (h2 : drone.status = .Attacking)
    (h3 : truthyTarget drone.targetId = none) :
    processDrone sqrtF ds did = ds := by
  unfold processDrone
  rw [h1]
  simp [h2, h3]

theorem processDrone_moving (sqrtF : ℚ → ℚ) (ds : List Drone)
    (did : String) (drone : Drone)
    (h1 : findDrone ds did = some drone) (h2 : drone.status = .Moving) :
    processDrone sqrtF ds did = movePhase sqrtF ds drone := by
  unfold processDrone
  rw [h1]
  simp [h2]

theorem processDrone_otherStatus (sqrtF : ℚ → ℚ) (ds : List Drone)
    (did : String) (drone : Drone)
    (h1 : findDrone ds did = some drone) (h2 : drone.status ≠ .Disabled)
    (h3 : drone.status ≠ .Attacking) (h4 : drone.status ≠ .Moving) :
    processDrone sqrtF ds did = ds := by
  unfold processDrone
  rw [h1]
  simp [h2, h3, h4]

/-! ### Roster shape preservation -/

theorem idsOf_attackPhase (sqrtF : ℚ → ℚ) (ds : List Drone)
    (drone target : Drone) :
    (attackPhase sqrtF ds drone target).map Drone.id = ds.map Drone.id := by
  unfold attackPhase
  split
  · exact idsOf_setDrone ds drone.id _ (fun d => rfl)
  · split
    · rw [idsOf_setDrone _ drone.id standDown (fun d => rfl),
        idsOf_setDrone _ target.id disableDrone (fun d => rfl),
        idsOf_setDrone _ target.id damageDrone (fun d => rfl)]
    · exact idsOf_setDrone ds target.id _ (fun d => rfl)

theorem idsOf_movePhase (sqrtF : ℚ → ℚ) (ds : List Drone) (drone : Drone) :
    (movePhase sqrtF ds drone).map Drone.id = ds.map Drone.id := by
  unfold movePhase
  split
  · exact idsOf_setDrone ds drone.id _ (fun d => rfl)
  · exact idsOf_setDrone ds drone.id _ (fun d => rfl)

theorem idsOf_processDrone (sqrtF : ℚ → ℚ) (ds : List Drone) (did : String) :
    (processDrone sqrtF ds did).map Drone.id = ds.map Drone.id := by
  unfold processDrone
  split
  · rfl
  · split
    · rfl
    · split
      · split
        · split
          · exact idsOf_setDrone ds did _ (fun d => rfl)
          · exact idsOf_attackPhase sqrtF ds _ _
        · exact idsOf_setDrone ds did _ (fun d => rfl)
      · split
        · exact idsOf_movePhase sqrtF ds _
        · rfl

theorem processDrone_length (sqrtF : ℚ → ℚ) (ds : List Drone) (did : String) :
    (processDrone sqrtF ds did).length = ds.length := by
  have h := congrArg List.length (idsOf_processDrone sqrtF ds did)
  simpa using h

/-! ### The health invariant (C1 machinery) -/

theorem healthBounds_setDrone (ds : List Drone) (i : String)
    (f : Drone → Drone) (hds : healthBounds ds)
    (hf : ∀ d, 0 ≤ d.health → d.health ≤ 100 →
      0 ≤ (f d).health ∧ (f d).health ≤ 100) :
    healthBounds (setDrone ds i f) := by
  intro d hd
  simp only [setDrone, List.mem_map] at hd
  obtain ⟨a, ha, rfl⟩ := hd
  by_cases h : a.id = i
  · simp only [h, if_pos rfl]
    exact hf a (hds a ha).1 (hds a ha).2
  · simp only [if_neg h]
    exact hds a ha

theorem damageDrone_health (d : Drone) (h0 : 0 ≤ d.health)
    (h1 : d.health ≤ 100) :
    0 ≤ (damageDrone d).health ∧ (damageDrone d).health ≤ 100 := by
  unfold damageDrone
  constructor
  · exact le_max_left 0 _
  · simp only
    rw [max_le_iff]
    constructor
    · norm_num
    · unfold ATTACK_DAMAGE
      linarith

theorem healthBounds_attackPhase (sqrtF : ℚ → ℚ) (ds : List Drone)
    (drone target : Drone) (h : healthBounds ds) :
    healthBounds (attackPhase sqrtF ds drone target) := by
  unfold attackPhase
  split
  · exact healthBounds_setDrone _ _ _ h (fun d h0 h1 => ⟨h0, h1⟩)
  · split
    · refine healthBounds_setDrone _ _ _ ?_ (fun d h0 h1 => ⟨h0, h1⟩)
      refine healthBounds_setDrone _ _ _ ?_ (fun d h0 h1 => ⟨h0, h1⟩)
      exact healthBounds_setDrone _ _ _ h damageDrone_health
    · exact healthBounds_setDrone _ _ _ h damageDrone_health

theorem healthBounds_movePhase (sqrtF : ℚ → ℚ) (ds : List Drone)
    (drone : Drone) (h : healthBounds ds) :
    healthBounds (movePhase sqrtF ds drone) := by
  unfold movePhase
  split
  · exact healthBounds_setDrone _ _ _ h (fun d h0 h1 => ⟨h0, h1⟩)
  · exact healthBounds_setDrone _ _ _ h (fun d h0 h1 => ⟨h0, h1⟩)

theorem healthBounds_processDrone (sqrtF : ℚ → ℚ) (ds : List Drone)
    (did : String) (h : healthBounds ds) :
    healthBounds (processDrone sqrtF ds did) := by
  unfold processDrone
  split
  · exact h
  · split
    · exact h
    · split
      · split
        · split
          · exact healthBounds_setDrone _ _ _ h (fun d h0 h1 => ⟨h0, h1⟩)
          · exact healthBounds_attackPhase sqrtF ds _ _ h
        · exact healthBounds_setDrone _ _ _ h (fun d h0 h1 => ⟨h0, h1⟩)
      · split
        · exact healthBounds_movePhase sqrtF ds _ h
        · exact h

theorem healthBounds_fold (sqrtF : ℚ → ℚ) (l : List String) :
    ∀ ds, healthBounds ds →
      healthBounds (l.foldl (processDrone sqrtF) ds) := by
  induction l with
  | nil => exact fun ds h => h
  | cons a t ih =>
    intro ds h
    exact ih _ (healthBounds_processDrone sqrtF ds a h)

theorem healthBounds_tick (sqrtF : ℚ → ℚ) (ds : List Drone)
    (h : healthBounds ds) : healthBounds (tick sqrtF ds) :=
  healthBounds_fold sqrtF _ ds h

theorem healthBounds_tickN (sqrtF : ℚ → ℚ) (n : ℕ) :
    ∀ ds, healthBounds ds → healthBounds (tickN sqrtF n ds) := by
  induction n with
  | zero => exact fun ds h => h
  | succ n ih =>
    intro ds h
    exact ih _ (healthBounds_tick sqrtF ds h)

/-! ### Disabled drones are frozen by the tick engine (C8 machinery) -/

theorem nodup_ids_inj (ds : List Drone) (hnd : (ds.map Drone.id).Nodup)
    (a b : Drone) (ha : a ∈ ds) (hb : b ∈ ds) (h : a.id = b.id) : a = b :=
  List.inj_on_of_nodup_map hnd ha hb h

/-- Under unique ids, a Disabled entry's id differs from the id of any drone
a branch of the tick handler writes to: every write subject was looked up
and seen non-Disabled. -/
theorem disabled_ne_writeSubject (ds : List Drone)
    (hnd : (ds.map Drone.id).Nodup)
    (z : String) (w : Drone) (hfind : findDrone ds z = some w)
    (hw : w.status ≠ .Disabled) (k : ℕ) (x : Drone) (hx : ds[k]? = some x)
    (hdis : x.status = .Disabled) : x.id ≠ z := by
  intro heq
  obtain ⟨hwmem, hwid⟩ := findDrone_mem ds z w hfind
  have hkmem : x ∈ ds := List.getElem?_mem hx
  have : x = w := nodup_ids_inj ds hnd x w hkmem hwmem (by rw [heq, hwid])
  rw [this] at hdis
  exact hw hdis

theorem getq_setDrone_ne (ds : List Drone) (i : String) (f : Drone → Drone)
    (k : ℕ) (x : Drone) (hx : ds[k]? = some x) (h : x.id ≠ i) :
    (setDrone ds i f)[k]? = some x := by
  unfold setDrone
  rw [List.getElem?_map, hx]
  simp [h]

theorem attackPhase_frozen (sqrtF : ℚ → ℚ) (ds : List Drone)
    (drone target : Drone) (hnd : (ds.map Drone.id).Nodup)
    (hfd : findDrone ds drone.id = some drone) (hds : drone.status ≠ .Disabled)
    (hft : findDrone ds target.id = some target)
    (hts : target.status ≠ .Disabled)
    (k : ℕ) (x : Drone) (hx : ds[k]? = some x)
    (hdis : x.status = .Disabled) :
    (attackPhase sqrtF ds drone target)[k]? = some x := by
  have hne_d : x.id ≠ drone.id :=
    disabled_ne_writeSubject ds hnd drone.id drone hfd hds k x hx hdis
  have hne_t : x.id ≠ target.id :=
    disabled_ne_writeSubject ds hnd target.id target hft hts k x hx hdis
  unfold attackPhase
  split
  · exact getq_setDrone_ne ds drone.id _ k x hx hne_d
  · split
    · refine getq_setDrone_ne _ drone.id standDown k x ?_ hne_d
      refine getq_setDrone_ne _ target.id disableDrone k x ?_ hne_t
      exact getq_setDrone_ne ds target.id damageDrone k x hx hne_t
    · exact getq_setDrone_ne ds target.id damageDrone k x hx hne_t

theorem movePhase_frozen (sqrtF : ℚ → ℚ) (ds : List Drone) (drone : Drone)
    (hnd : (ds.map Drone.id).Nodup)
    (hfd : findDrone ds drone.id = some drone) (hds : drone.status ≠ .Disabled)
    (k : ℕ) (x : Drone) (hx : ds[k]? = some x)
    (hdis : x.status = .Disabled) :
    (movePhase sqrtF ds drone)[k]? = some x := by
  have hne_d : x.id ≠ drone.id :=
    disabled_ne_writeSubject ds hnd drone.id drone hfd hds k x hx hdis
  unfold movePhase
  split
  · exact getq_setDrone_ne ds drone.id _ k x hx hne_d
  · exact getq_setDrone_ne ds drone.id _ k x hx hne_d

theorem processDrone_frozen (sqrtF : ℚ → ℚ) (ds : List Drone) (did : String)
    (hnd : (ds.map Drone.id).Nodup)
    (k : ℕ) (x : Drone) (hx : ds[k]? = some x)
    (hdis : x.status = .Disabled) :
    (processDrone sqrtF ds did)[k]? = some x := by
  unfold processDrone
  split
  · exact hx
  · rename_i drone hfind
    split
    · exact hx
    · rename_i hnotdis
      have hdid : drone.id = did := (findDrone_mem ds did drone hfind).2
      have hfd : findDrone ds drone.id = some drone := by rw [hdid]; exact hfind
      have hne_d : x.id ≠ drone.id :=
        disabled_ne_writeSubject ds hnd drone.id drone hfd hnotdis k x hx hdis
      split
      · rename_i tid htid
        split
        · rename_i target hftid
          split
          · refine getq_setDrone_ne ds did standDown k x hx ?_
            rw [← hdid]
            exact hne_d
          · rename_i htdis
            have htidid : target.id = tid := (findDrone_mem ds tid target hftid).2
            have hft : findDrone ds target.id = some target := by
              rw [htidid]; exact hftid
            exact attackPhase_frozen sqrtF ds drone target hnd hfd hnotdis hft
              htdis k x hx hdis
        · refine getq_setDrone_ne ds did standDown k x hx ?_
          rw [← hdid]
          exact hne_d
      · split
        · exact movePhase_frozen sqrtF ds drone hnd hfd hnotdis k x hx hdis
        · exact hx

theorem fold_frozen (sqrtF : ℚ → ℚ) (l : List String) :
    ∀ ds, (ds.map Drone.id).Nodup →
      ∀ (k : ℕ) (x : Drone), ds[k]? = some x → x.status = .Disabled →
      (l.foldl (processDrone sqrtF) ds)[k]? = some x := by
  induction l with
  | nil => exact fun ds _ k x hx _ => hx
  | cons a t ih =>
    intro ds hnd k x hx hdis
    have hnd2 : ((processDrone sqrtF ds a).map Drone.id).Nodup := by
      rw [idsOf_processDrone]; exact hnd
    exact ih (processDrone sqrtF ds a) hnd2 k x
      (processDrone_frozen sqrtF ds a hnd k x hx hdis) hdis

theorem idsOf_fold (sqrtF : ℚ → ℚ) (l : List String) :
    ∀ ds : List Drone,
      (l.foldl (processDrone sqrtF) ds).map Drone.id = ds.map Drone.id := by
  induction l with
  | nil => exact fun ds => rfl
  | cons a t ih =>
    intro ds
    simp only [List.foldl]
    rw [ih (processDrone sqrtF ds a), idsOf_processDrone]

theorem idsOf_tick (sqrtF : ℚ → ℚ) (ds : List Drone) :
    (tick sqrtF ds).map Drone.id = ds.map Drone.id := by
  unfold tick
  exact idsOf_fold sqrtF (ds.map Drone.id) ds

theorem tick_frozen (sqrtF : ℚ → ℚ) (ds : List Drone)
    (hnd : (ds.map Drone.id).Nodup)
    (k : ℕ) (x : Drone) (hx : ds[k]? = some x)
    (hdis : x.status = .Disabled) :
    (tick sqrtF ds)[k]? = some x :=
  fold_frozen sqrtF (ds.map Drone.id) ds hnd k x hx hdis

theorem tickN_frozen (sqrtF : ℚ → ℚ) (n : ℕ) :
    ∀ ds, (ds.map Drone.id).Nodup →
      ∀ (k : ℕ) (x : Drone), ds[k]? = some x → x.status = .Disabled →
      (tickN sqrtF n ds)[k]? = some x := by
  induction n with
  | zero => exact fun ds _ k x hx _ => hx
  | succ n ih =>
    intro ds hnd k x hx hdis
    have hnd2 : ((tick sqrtF ds).map Drone.id).Nodup := by
      rw [idsOf_tick]; exact hnd
    exact ih (tick sqrtF ds) hnd2 k x (tick_frozen sqrtF ds hnd k x hx hdis) hdis

/-! ### Claim theorems -/

/-- C1: for every agent and every tick of the world simulation engine, the
agent's health at the tick boundary stays within [0, 100]: the only health
write is the in-range attack `Math.max(0, health - ATTACK_DAMAGE)`, which
clamps at 0 and never increases health, so the bounds are preserved over
any number of ticks and any square-root oracle. -/
theorem C1_health_within_bounds (sqrtF : ℚ → ℚ) (ds : List Drone)
    (h : healthBounds ds) (n : ℕ) : healthBounds (tickN sqrtF n ds) :=
  healthBounds_tickN sqrtF n ds h

/-- Witness for C1 on a concrete two-drone roster, ten ticks. -/
theorem C1_health_within_bounds_witness :
    healthBounds (tickN sampleSqrt 10 [sampleAttacker, sampleVictim]) := by
  refine C1_health_within_bounds sampleSqrt _ ?_ 10
  intro d hd
  simp only [List.mem_cons, List.not_mem_nil, or_false] at hd
  rcases hd with rfl | rfl <;> norm_num [sampleAttacker, sampleVictim]

/-- C5 counterexample: `addLog` appends the new entry to the *last 100*
entries of the previous log (`prev.slice(-100)`), so a log that already
holds 100 entries grows to 101 — the claimed capacity of 100 is exceeded. -/
theorem C5_counterexample :
    (addLog (List.replicate 100 sampleEntry) sampleEntry).length = 101 ∧
      ¬ (addLog (List.replicate 100 sampleEntry) sampleEntry).length ≤ 100 := by
  constructor
  · simp [addLog, jsSliceLast]
  · simp [addLog, jsSliceLast]

/-- C5 (amended): after every append the log holds at most **101** entries:
the new entry is appended to the last 100 entries of the previous state, so
the oldest entries beyond the most recent 100 are dropped first (in order),
and a log of at most 100 entries loses nothing. -/
theorem C5_log_bounded (prev : List LogEntry) (e : LogEntry) :
    (addLog prev e).length ≤ 101 ∧
      addLog prev e = (prev ++ [e]).drop (prev.length - 100) ∧
      (prev.length ≤ 100 → addLog prev e = prev ++ [e]) := by
  refine ⟨?_, ?_, ?_⟩
  · simp only [addLog, jsSliceLast, List.length_append, List.length_drop,
      List.length_cons, List.length_nil]
    omega
  · simp only [addLog, jsSliceLast, List.drop_append_eq_append_drop]
    congr 1
    have : prev.length - 100 - prev.length = 0 := by omega
    rw [this]
    rfl
  · intro hle
    have : prev.length - 100 = 0 := by omega
    simp [addLog, jsSliceLast, this]

/-- Witness for C5 (amended) on a concrete 50-entry log. -/
theorem C5_log_bounded_witness :
    addLog (List.replicate 50 sampleEntry) sampleEntry =
      List.replicate 50 sampleEntry ++ [sampleEntry] :=
  (C5_log_bounded (List.replicate 50 sampleEntry) sampleEntry).2.2 (by simp)

/-- C9: when an Attack stratagem names a falsy, unknown or Disabled target,
`runDroneLogic` sets the agent's status to Idle but leaves the existing
`targetId` field unchanged (the update object contains no `targetId` key),
unlike the Move and Hold outcomes, which both set `targetId` to null. -/
theorem C9_invalid_attack_keeps_targetId (enemySwarm : List Drone)
    (drone : Drone) (s : IndividualStratagem) :
    (s.action.type = .ATTACK → truthyTarget s.action.target_id = none →
      applyStratagem enemySwarm drone (some s) = { drone with status := .Idle }) ∧
    (∀ tid, s.action.type = .ATTACK → s.action.target_id = some tid →
      tid ≠ "" →
      (enemySwarm.filter (fun d => d.status ≠ .Disabled)).any
        (fun e => e.id = tid) = false →
      applyStratagem enemySwarm drone (some s) = { drone with status := .Idle }) ∧
    (s.action.type = .ATTACK → truthyTarget s.action.target_id = none →
      (applyStratagem enemySwarm drone (some s)).targetId = drone.targetId) ∧
    (s.action.type = .MOVE →
      (applyStratagem enemySwarm drone (some s)).targetId = none) ∧
    (s.action.type = .HOLD →
      (applyStratagem enemySwarm drone (some s)).targetId = none) := by
  refine ⟨?_, ?_, ?_, ?_, ?_⟩
  · intro hA ht
    simp [applyStratagem, hA, ht]
  · intro tid hA ht hne hnone
    simp [applyStratagem, hA, ht, truthyTarget, hne]
    intro x hx hs
    have h2 := (List.any_eq_false.mp hnone) x (List.mem_filter.mpr ⟨hx, by simp [hs]⟩)
    simpa using h2
  · intro hA ht
    simp [applyStratagem, hA, ht]
  · intro hM
    simp [applyStratagem, hM]
  · intro hH
    simp [applyStratagem, hH]

/-- Witness for C9: concrete invalid-target stratagem against a roster whose
only enemy is Disabled. -/
theorem C9_invalid_attack_keeps_targetId_witness :
    applyStratagem [sampleDisabled] sampleAttacker
        (some ⟨"n", "j", ⟨.ATTACK, some ("r-drone-1"), none⟩⟩) =
      { sampleAttacker with status := .Idle } :=
  (C9_invalid_attack_keeps_targetId [sampleDisabled] sampleAttacker
    ⟨"n", "j", ⟨.ATTACK, some ("r-drone-1"), none⟩⟩).2.1 ("r-drone-1")
    rfl rfl (by simp) (by simp [sampleDisabled])

/-- C10: a Move stratagem that carries no position makes `runDroneLogic`
fall back to the drone's own position (`stratagem.action.position ||
drone.position`), so the drone enters Moving with `targetPosition` equal to
its current position; the next tick sees distance 0 < DRONE_SPEED, snaps
the drone onto its own position (no movement) and reverts it to Idle — no
error is raised anywhere on this path. -/
theorem C10_move_without_position (enemySwarm : List Drone) (drone : Drone)
    (s : IndividualStratagem) (sqrtF : ℚ → ℚ) (ds : List Drone) (did : String)
    (drone2 : Drone)
    (hM : s.action.type = .MOVE) (hp : s.action.position = none)
    (h1 : findDrone ds did = some drone2) (h2 : drone2.status = .Moving)
    (h3 : drone2.targetPosition = drone2.position) (hsq : sqrtF 0 = 0) :
    applyStratagem enemySwarm drone (some s) =
      { drone with status := .Moving, targetPosition := drone.position,
                   targetId := none } ∧
    processDrone sqrtF ds did = setDrone ds did snapToTarget ∧
    (snapToTarget drone2).position = drone2.position ∧
    (snapToTarget drone2).status = .Idle := by
  refine ⟨?_, ?_, ?_, rfl⟩
  · simp [applyStratagem, hM, hp]
  · have hid : drone2.id = did := (findDrone_mem ds did drone2 h1).2
    rw [processDrone_moving sqrtF ds did drone2 h1 h2, ← hid]
    refine movePhase_snap sqrtF ds drone2 0 ?_ (by norm_num [DRONE_SPEED])
    have hm0 : moveDist2 drone2 = 0 := by
      unfold moveDist2
      rw [h3]
      ring
    rw [hm0, hsq]
  · unfold snapToTarget
    simp [h3]

/-- Witness for C10: a concrete Moving drone whose target position is its
own position. -/
theorem C10_move_without_position_witness :
    applyStratagem [] sampleAttacker (some ⟨"n", "j", ⟨.MOVE, none, none⟩⟩) =
      { sampleAttacker with status := .Moving,
                            targetPosition := sampleAttacker.position,
                            targetId := none } ∧
    processDrone sampleSqrt [sampleMover] ("b-drone-1") =
      setDrone [sampleMover] ("b-drone-1") snapToTarget := by
  have h := C10_move_without_position [] sampleAttacker
    ⟨"n", "j", ⟨.MOVE, none, none⟩⟩ sampleSqrt [sampleMover] ("b-drone-1")
    sampleMover rfl rfl (by simp [findDrone, sampleMover])
    (by simp [sampleMover]) (by simp [sampleMover])
    (by norm_num [sampleSqrt])
  exact ⟨h.1, h.2.1⟩

/-- C2: for an Attacking drone whose target resolves and is not Disabled,
one iteration of the tick loop deals damage to the target iff the distance
(`r`, the square root of the squared distance, characterized by `0 ≤ r` and
`r * r = dist2`) is at most `ATTACK_RANGE`; beyond the range the attacker
advances exactly `DRONE_SPEED` along the normalized vector toward the
target (the squared length of the step is `DRONE_SPEED²`), keeps status
Attacking, and the target's record — its health included — is untouched;
within the range the target's health becomes
`max 0 (health - ATTACK_DAMAGE)` and the attacker's position is untouched.
The final conjunct is the spec's concrete scenario: attacker at (100,100),
enemy at (100,300), distance 200 > 75, one tick moves the attacker to
(100,101), leaves it Attacking and leaves the target's health at 100. -/
theorem C2_attack_range_dichotomy (sqrtF : ℚ → ℚ) (ds : List Drone)
    (did tid : String) (drone target : Drone) (r : ℚ)
    (h1 : findDrone ds did = some drone) (h2 : drone.status = .Attacking)
    (h3 : drone.targetId = some tid) (h4 : tid ≠ "")
    (h5 : findDrone ds tid = some target) (h6 : target.status ≠ .Disabled)
    (hneq : did ≠ tid)
    (hr0 : 0 ≤ r) (hrr : r * r = dist2 drone target)
    (hsq : sqrtF (dist2 drone target) = r) :
    (ATTACK_RANGE < r →
      processDrone sqrtF ds did =
        setDrone ds did
          (moveToward (target.position.x - drone.position.x)
            (target.position.y - drone.position.y) r) ∧
      findDrone (processDrone sqrtF ds did) tid = some target ∧
      findDrone (processDrone sqrtF ds did) did =
        some (moveToward (target.position.x - drone.position.x)
          (target.position.y - drone.position.y) r drone) ∧
      (moveToward (target.position.x - drone.position.x)
        (target.position.y - drone.position.y) r drone).status = .Attacking ∧
      ((target.position.x - drone.position.x) / r * DRONE_SPEED) *
          ((target.position.x - drone.position.x) / r * DRONE_SPEED) +
        ((target.position.y - drone.position.y) / r * DRONE_SPEED) *
          ((target.position.y - drone.position.y) / r * DRONE_SPEED) =
        DRONE_SPEED * DRONE_SPEED) ∧
    (¬ ATTACK_RANGE < r →
      (findDrone (processDrone sqrtF ds did) tid).map Drone.health =
        some (max 0 (target.health - ATTACK_DAMAGE)) ∧
      (findDrone (processDrone sqrtF ds did) did).map Drone.position =
        some drone.position) ∧
    tick sampleSqrt [sampleAttacker, sampleVictim] =
      [{ sampleAttacker with position := ⟨100, 101⟩ }, sampleVictim] := by
  have hdid : drone.id = did := (findDrone_mem ds did drone h1).2
  have htid : target.id = tid := (findDrone_mem ds tid target h5).2
  refine ⟨?_, ?_, ?_⟩
  · intro hrange
    have heq : processDrone sqrtF ds did =
        setDrone ds did
          (moveToward (target.position.x - drone.position.x)
            (target.position.y - drone.position.y) r) := by
      rw [processDrone_attack_live sqrtF ds did drone tid target h1 h2 h3 h4 h5 h6,
        attackPhase_outOfRange sqrtF ds drone target r hsq hrange, hdid]
    have hrpos : (0 : ℚ) < r := by
      have : (0 : ℚ) < ATTACK_RANGE := by norm_num [ATTACK_RANGE]
      linarith
    have hrne : r ≠ 0 := ne_of_gt hrpos
    refine ⟨heq, ?_, ?_, ?_, ?_⟩
    · rw [heq, findDrone_setDrone_ne ds did tid
        (moveToward (target.position.x - drone.position.x)
          (target.position.y - drone.position.y) r) (fun d => rfl) hneq]
      exact h5
    · rw [heq, findDrone_setDrone_self ds did
        (moveToward (target.position.x - drone.position.x)
          (target.position.y - drone.position.y) r) (fun d => rfl), h1]
      rfl
    · simpa [moveToward] using h2
    · field_simp
      rw [hrr]
      unfold dist2 DRONE_SPEED
      ring
  · intro hrange
    by_cases hkill : max 0 (target.health - ATTACK_DAMAGE) = 0
    · have heq : processDrone sqrtF ds did =
          setDrone (setDrone (setDrone ds target.id damageDrone)
            target.id disableDrone) drone.id standDown := by
        rw [processDrone_attack_live sqrtF ds did drone tid target h1 h2 h3 h4 h5 h6,
          attackPhase_inRange_kill sqrtF ds drone target r hsq hrange hkill]
      constructor
      · rw [heq, htid, hdid]
        rw [findDrone_setDrone_ne _ did tid standDown (fun d => rfl) hneq]
        rw [findDrone_setDrone_self _ tid disableDrone (fun d => rfl)]
        rw [findDrone_setDrone_self _ tid damageDrone (fun d => rfl)]
        rw [h5]
        rfl
      · rw [heq, htid, hdid]
        rw [findDrone_setDrone_self _ did standDown (fun d => rfl)]
        rw [findDrone_setDrone_ne _ tid did disableDrone (fun d => rfl)
          (Ne.symm hneq)]
        rw [findDrone_setDrone_ne _ tid did damageDrone (fun d => rfl)
          (Ne.symm hneq)]
        rw [h1]
        rfl
    · have heq : processDrone sqrtF ds did =
          setDrone ds target.id damageDrone := by
        rw [processDrone_attack_live sqrtF ds did drone tid target h1 h2 h3 h4 h5 h6,
          attackPhase_inRange_noKill sqrtF ds drone target r hsq hrange hkill]
      constructor
      · rw [heq, htid, findDrone_setDrone_self ds tid damageDrone (fun d => rfl),
          h5]
        rfl
      · rw [heq, htid, findDrone_setDrone_ne ds tid did damageDrone
          (fun d => rfl) (Ne.symm hneq), h1]
        rfl
  · have f1 : findDrone [sampleAttacker, sampleVictim] ("b-drone-0") =
        some sampleAttacker := rfl
    have f2 : findDrone [sampleAttacker, sampleVictim] ("r-drone-0") =
        some sampleVictim := rfl
    have hd2 : dist2 sampleAttacker sampleVictim = 40000 := by
      norm_num [dist2, sampleAttacker, sampleVictim]
    have hs2 : sampleSqrt (dist2 sampleAttacker sampleVictim) = 200 := by
      rw [hd2]
      norm_num [sampleSqrt]
    have step1 : processDrone sampleSqrt [sampleAttacker, sampleVictim]
        ("b-drone-0") =
        setDrone [sampleAttacker, sampleVictim] ("b-drone-0")
          (moveToward
            (sampleVictim.position.x - sampleAttacker.position.x)
            (sampleVictim.position.y - sampleAttacker.position.y) 200) := by
      rw [processDrone_attack_live sampleSqrt _ _ sampleAttacker ("r-drone-0")
        sampleVictim f1 (by simp [sampleAttacker])
        (by simp [sampleAttacker]) (by decide) f2
        (by simp [sampleVictim])]
      rw [attackPhase_outOfRange sampleSqrt _ sampleAttacker sampleVictim 200
        hs2 (by norm_num [ATTACK_RANGE])]
      rfl
    have hds1 : setDrone [sampleAttacker, sampleVictim] ("b-drone-0")
        (moveToward (sampleVictim.position.x - sampleAttacker.position.x)
          (sampleVictim.position.y - sampleAttacker.position.y) 200) =
        [{ sampleAttacker with position := ⟨100, 101⟩ }, sampleVictim] := by
      simp only [setDrone, List.map, moveToward, sampleAttacker, sampleVictim]
      norm_num [DRONE_SPEED]
      decide
    have step2 : processDrone sampleSqrt
        [{ sampleAttacker with position := ⟨100, 101⟩ }, sampleVictim]
        ("r-drone-0") =
        [{ sampleAttacker with position := ⟨100, 101⟩ }, sampleVictim] := by
      refine processDrone_otherStatus sampleSqrt _ _ sampleVictim rfl ?_ ?_ ?_ <;>
        simp [sampleVictim]
    show List.foldl (processDrone sampleSqrt) [sampleAttacker, sampleVictim]
        (List.map Drone.id [sampleAttacker, sampleVictim]) =
      [{ sampleAttacker with position := ⟨100, 101⟩ }, sampleVictim]
    rw [show List.map Drone.id [sampleAttacker, sampleVictim] =
      ["b-drone-0", "r-drone-0"] from rfl]
    simp only [List.foldl]
    rw [step1, hds1, step2]

/-- Witness for C2: the spec's concrete out-of-range scenario, through the
general dichotomy theorem. -/
theorem C2_attack_range_dichotomy_witness :
    processDrone sampleSqrt [sampleAttacker, sampleVictim] ("b-drone-0") =
      setDrone [sampleAttacker, sampleVictim] ("b-drone-0")
        (moveToward (sampleVictim.position.x - sampleAttacker.position.x)
          (sampleVictim.position.y - sampleAttacker.position.y) 200) := by
  have h := C2_attack_range_dichotomy sampleSqrt [sampleAttacker, sampleVictim]
    ("b-drone-0") ("r-drone-0") sampleAttacker sampleVictim 200
    rfl (by simp [sampleAttacker]) (by simp [sampleAttacker]) (by decide)
    rfl (by simp [sampleVictim]) (by decide) (by norm_num)
    (by norm_num [dist2, sampleAttacker, sampleVictim])
    (by norm_num [sampleSqrt, dist2, sampleAttacker, sampleVictim])
  exact (h.1 (by norm_num [ATTACK_RANGE])).1

/-- C8: (i) an in-range attack that brings the target's health to exactly 0
(`max 0 (health - ATTACK_DAMAGE) = 0`) marks the target Disabled, reverts
the attacker to Idle and clears its targetId in the same loop iteration;
(ii) Disabled is absorbing: under unique ids, a Disabled agent's entire
record (health included) is bit-for-bit unchanged by any number of ticks,
so the transition to Disabled happens at most once and a Disabled agent is
never damaged again; (iii) a decision that leaves an agent Attacking always
references a non-Disabled enemy of the current roster, so Disabled agents
are never accepted as targets; (iv) the active-enemy roster offered to the
oracle (the `status !== Disabled` filter) contains no Disabled agent. -/
theorem C8_disabled_exactly_once :
    (∀ (sqrtF : ℚ → ℚ) (ds : List Drone) (did tid : String)
        (drone target : Drone) (r : ℚ),
      findDrone ds did = some drone → drone.status = .Attacking →
      drone.targetId = some tid → tid ≠ "" →
      findDrone ds tid = some target → target.status ≠ .Disabled →
      did ≠ tid →
      sqrtF (dist2 drone target) = r → ¬ ATTACK_RANGE < r →
      max 0 (target.health - ATTACK_DAMAGE) = 0 →
      findDrone (processDrone sqrtF ds did) tid =
        some { target with health := 0, status := .Disabled } ∧
      findDrone (processDrone sqrtF ds did) did =
        some { drone with status := .Idle, targetId := none }) ∧
    (∀ (sqrtF : ℚ → ℚ) (n : ℕ) (ds : List Drone) (k : ℕ) (x : Drone),
      (ds.map Drone.id).Nodup → ds[k]? = some x → x.status = .Disabled →
      (tickN sqrtF n ds)[k]? = some x) ∧
    (∀ (enemySwarm : List Drone) (drone : Drone)
        (strat : Option IndividualStratagem),
      (applyStratagem enemySwarm drone strat).status = .Attacking →
      ∃ e ∈ enemySwarm, e.status ≠ .Disabled ∧
        (applyStratagem enemySwarm drone strat).targetId = some e.id) ∧
    (∀ (enemySwarm : List Drone) (e : Drone),
      e ∈ enemySwarm.filter (fun d => d.status ≠ .Disabled) →
      e.status ≠ .Disabled) := by
  refine ⟨?_, ?_, ?_, ?_⟩
  · intro sqrtF ds did tid drone target r h1 h2 h3 h4 h5 h6 hneq hsq hrange hkill
    have hdid : drone.id = did := (findDrone_mem ds did drone h1).2
    have htid : target.id = tid := (findDrone_mem ds tid target h5).2
    have heq : processDrone sqrtF ds did =
        setDrone (setDrone (setDrone ds target.id damageDrone)
          target.id disableDrone) drone.id standDown := by
      rw [processDrone_attack_live sqrtF ds did drone tid target h1 h2 h3 h4 h5 h6,
        attackPhase_inRange_kill sqrtF ds drone target r hsq hrange hkill]
    constructor
    · rw [heq, htid, hdid]
      rw [findDrone_setDrone_ne _ did tid standDown (fun d => rfl) hneq]
      rw [findDrone_setDrone_self _ tid disableDrone (fun d => rfl)]
      rw [findDrone_setDrone_self _ tid damageDrone (fun d => rfl)]
      rw [h5]
      simp [damageDrone, disableDrone, hkill, htid]
    · rw [heq, htid, hdid]
      rw [findDrone_setDrone_self _ did standDown (fun d => rfl)]
      rw [findDrone_setDrone_ne _ tid did disableDrone (fun d => rfl)
        (Ne.symm hneq)]
      rw [findDrone_setDrone_ne _ tid did damageDrone (fun d => rfl)
        (Ne.symm hneq)]
      rw [h1]
      simp [standDown, hdid]
  · intro sqrtF n ds k x hnd hx hdis
    exact tickN_frozen sqrtF n ds hnd k x hx hdis
  · intro enemySwarm drone strat h
    rcases strat with _ | s
    · simp [applyStratagem] at h
    · rcases ht : s.action.type with _ | _ | _
      · rw [applyStratagem] at h
        simp [ht] at h
      · rcases htr : truthyTarget s.action.target_id with _ | tid
        · rw [applyStratagem] at h
          simp [ht, htr] at h
        · by_cases hany : (enemySwarm.filter
              (fun d => d.status ≠ .Disabled)).any (fun e => e.id = tid) = true
          · obtain ⟨e, he, heid⟩ := List.any_eq_true.mp hany
            refine ⟨e, (List.mem_filter.mp he).1, ?_, ?_⟩
            · have := (List.mem_filter.mp he).2
              simpa using this
            · rw [applyStratagem]
              simp only [ht, htr, hany, if_pos]
              simp only [decide_eq_true_eq] at heid
              rw [heid]
          · rw [applyStratagem] at h
            simp [ht, htr] at h
            have hcond : ¬ ∃ x ∈ enemySwarm,
                ¬x.status = DroneStatus.Disabled ∧ x.id = tid := by
              simpa [List.any_eq_true, List.mem_filter] using hany
            rw [if_neg hcond] at h
            simp at h
      · rw [applyStratagem] at h
        simp [ht] at h
  · intro enemySwarm e he
    have := (List.mem_filter.mp he).2
    simpa using this

/-- Witness for C8: a concrete kill (target at 5 health, 50 units away) and
a concrete Disabled drone unchanged over three ticks. -/
theorem C8_disabled_exactly_once_witness :
    findDrone (processDrone sampleSqrt [sampleAttacker, sampleWounded]
        ("b-drone-0")) ("r-drone-0") =
      some { sampleWounded with health := 0, status := .Disabled } ∧
    (tickN sampleSqrt 3 [sampleAttacker, sampleDisabled])[1]? =
      some sampleDisabled := by
  constructor
  · exact (C8_disabled_exactly_once.1 sampleSqrt [sampleAttacker, sampleWounded]
      ("b-drone-0") ("r-drone-0") sampleAttacker sampleWounded 50
      rfl (by simp [sampleAttacker]) (by simp [sampleAttacker]) (by decide)
      rfl (by simp [sampleWounded]) (by decide)
      (by norm_num [sampleSqrt, dist2, sampleAttacker, sampleWounded])
      (by norm_num [ATTACK_RANGE]) (by norm_num [sampleWounded, ATTACK_DAMAGE])).1
  · exact C8_disabled_exactly_once.2.1 sampleSqrt 3 _ 1 sampleDisabled
      (by decide) rfl (by simp [sampleDisabled])

/-! ### Step lemmas for the retry loop -/

theorem googleLoop_ok (o : ℕ → Outcome) (j : ℕ → ℚ) (rem attempt : ℕ)
    (jv : Json) (h : attemptBody (o attempt) = .ok jv) :
    googleLoop o j (rem + 1) attempt = ⟨.parsed jv, attempt, []⟩ := by
  simp [googleLoop, h]

theorem googleLoop_throw (o : ℕ → Outcome) (j : ℕ → ℚ) (rem attempt : ℕ)
    (m : List Char) (h : attemptBody (o attempt) = .error m)
    (hc : ¬(isRateLimitError m = true ∧ attempt < MAX_RETRIES)) :
    googleLoop o j (rem + 1) attempt =
      ⟨.thrown (.fromAttempt m), attempt, []⟩ := by
  simp only [googleLoop, h]
  rw [if_neg hc]

theorem googleLoop_retry (o : ℕ → Outcome) (j : ℕ → ℚ) (rem attempt : ℕ)
    (m : List Char) (h : attemptBody (o attempt) = .error m)
    (hrl : isRateLimitError m = true) (hlt : attempt < MAX_RETRIES) :
    googleLoop o j (rem + 1) attempt =
      ⟨(googleLoop o j rem (attempt + 1)).result,
       (googleLoop o j rem (attempt + 1)).attempts,
       max 500 ((if attempt = 1 then (parseRetryDelay m).getD 2000
         else (2 : ℚ) ^ attempt * 1000) + j attempt) ::
         (googleLoop o j rem (attempt + 1)).waits⟩ := by
  simp only [googleLoop, h]
  rw [if_pos ⟨hrl, hlt⟩]

theorem googleLoop_attempts_le (o : ℕ → Outcome) (j : ℕ → ℚ) :
    ∀ rem attempt, (googleLoop o j rem attempt).attempts ≤
      attempt + rem - 1 := by
  intro rem
  induction rem with
  | zero => intro attempt; simp [googleLoop]
  | succ rem ih =>
    intro attempt
    rcases hb : attemptBody (o attempt) with m | jv
    swap
    · rw [googleLoop_ok o j rem attempt jv hb]
      dsimp only
      omega
    · by_cases hc : isRateLimitError m = true ∧ attempt < MAX_RETRIES
      · rw [googleLoop_retry o j rem attempt m hb hc.1 hc.2]
        have := ih (attempt + 1)
        dsimp only
        omega
      · rw [googleLoop_throw o j rem attempt m hb hc]
        dsimp only
        omega

theorem googleLoop_waits_floor (o : ℕ → Outcome) (j : ℕ → ℚ) :
    ∀ rem attempt w, w ∈ (googleLoop o j rem attempt).waits → 500 ≤ w := by
  intro rem
  induction rem with
  | zero => intro attempt w hw; simp [googleLoop] at hw
  | succ rem ih =>
    intro attempt w hw
    rcases hb : attemptBody (o attempt) with m | jv
    swap
    · rw [googleLoop_ok o j rem attempt jv hb] at hw
      simp at hw
    · by_cases hc : isRateLimitError m = true ∧ attempt < MAX_RETRIES
      · rw [googleLoop_retry o j rem attempt m hb hc.1 hc.2] at hw
        simp only [List.mem_cons] at hw
        rcases hw with rfl | hw
        · exact le_max_left 500 _
        · exact ih (attempt + 1) w hw
      · rw [googleLoop_throw o j rem attempt m hb hc] at hw
        simp at hw

theorem googleLoop_waits_at3 (o : ℕ → Outcome) (j : ℕ → ℚ) :
    ∀ rem, (googleLoop o j rem 3).waits = [] := by
  intro rem
  cases rem with
  | zero => rfl
  | succ rem =>
    rcases hb : attemptBody (o 3) with m | jv
    · rw [googleLoop_throw o j rem 3 m hb (by simp [MAX_RETRIES])]
    · rw [googleLoop_ok o j rem 3 jv hb]

/-- C3: the retry loop of `getGoogleAIAction` makes at most `MAX_RETRIES`
(3) attempts for every outcome sequence, and a non-rate-limit-class error
(its message contains neither `429` nor `RESOURCE_EXHAUSTED`) is re-thrown
immediately after the attempt that raised it — on attempt 1, 2 or 3 the
call ends there with that error and no further wait is slept. -/
theorem C3_retry_bounds :
    (∀ (o : ℕ → Outcome) (j : ℕ → ℚ),
      (getGoogleAIAction o j).attempts ≤ MAX_RETRIES) ∧
    (∀ (o : ℕ → Outcome) (j : ℕ → ℚ) (m : List Char),
      attemptBody (o 1) = .error m → isRateLimitError m = false →
      getGoogleAIAction o j = ⟨.thrown (.fromAttempt m), 1, []⟩) ∧
    (∀ (o : ℕ → Outcome) (j : ℕ → ℚ) (m1 m : List Char),
      attemptBody (o 1) = .error m1 → isRateLimitError m1 = true →
      attemptBody (o 2) = .error m → isRateLimitError m = false →
      (getGoogleAIAction o j).result = .thrown (.fromAttempt m) ∧
      (getGoogleAIAction o j).attempts = 2 ∧
      (getGoogleAIAction o j).waits.length = 1) ∧
    (∀ (o : ℕ → Outcome) (j : ℕ → ℚ) (m1 m2 m : List Char),
      attemptBody (o 1) = .error m1 → isRateLimitError m1 = true →
      attemptBody (o 2) = .error m2 → isRateLimitError m2 = true →
      attemptBody (o 3) = .error m → isRateLimitError m = false →
      (getGoogleAIAction o j).result = .thrown (.fromAttempt m) ∧
      (getGoogleAIAction o j).attempts = 3 ∧
      (getGoogleAIAction o j).waits.length = 2) := by
  refine ⟨?_, ?_, ?_, ?_⟩
  · intro o j
    have := googleLoop_attempts_le o j MAX_RETRIES 1
    unfold getGoogleAIAction
    unfold MAX_RETRIES at this ⊢
    omega
  · intro o j m h1 hnl
    unfold getGoogleAIAction
    rw [show (MAX_RETRIES : ℕ) = 2 + 1 from rfl]
    rw [googleLoop_throw o j 2 1 m h1 (by simp [hnl])]
  · intro o j m1 m h1 hrl1 h2 hnl
    unfold getGoogleAIAction
    rw [show (MAX_RETRIES : ℕ) = 2 + 1 from rfl]
    rw [googleLoop_retry o j 2 1 m1 h1 hrl1 (by norm_num [MAX_RETRIES])]
    dsimp only
    rw [googleLoop_throw o j 1 2 m h2 (by simp [hnl])]
    simp
  · intro o j m1 m2 m h1 hrl1 h2 hrl2 h3 hnl
    unfold getGoogleAIAction
    rw [show (MAX_RETRIES : ℕ) = 2 + 1 from rfl]
    rw [googleLoop_retry o j 2 1 m1 h1 hrl1 (by norm_num [MAX_RETRIES])]
    dsimp only
    rw [googleLoop_retry o j 1 2 m2 h2 hrl2 (by norm_num [MAX_RETRIES])]
    dsimp only
    rw [googleLoop_throw o j 0 3 m h3 (by simp [hnl])]
    simp

/-- Witness for C3: a concrete non-rate-limit failure on attempt 1 ends the
call immediately with that error. -/
theorem C3_retry_bounds_witness :
    getGoogleAIAction (fun _ => .err msgBoom) (fun _ => 0) =
      ⟨.thrown (.fromAttempt msgBoom), 1, []⟩ :=
  C3_retry_bounds.2.1 (fun _ => .err msgBoom) (fun _ => 0) msgBoom rfl (by rfl)

/-- C4 counterexample: three consecutive rate-limit failures end with the
*underlying* rate-limit error of attempt 3 re-thrown (`throw error` in the
catch block, since `attempt < MAX_RETRIES` fails), not with the dedicated
`Exceeded max retries` error — that post-loop throw is unreachable. -/
theorem C4_counterexample :
    getGoogleAIAction (fun _ => .err msg429) (fun _ => 0) =
      ⟨.thrown (.fromAttempt msg429), 3, [2000, 4000]⟩ ∧
    (getGoogleAIAction (fun _ => .err msg429) (fun _ => 0)).result ≠
      .thrown .exceededMax := by
  have hrun : getGoogleAIAction (fun _ => .err msg429) (fun _ => 0) =
      ⟨.thrown (.fromAttempt msg429), 3, [2000, 4000]⟩ := by
    unfold getGoogleAIAction
    rw [show (MAX_RETRIES : ℕ) = 2 + 1 from rfl]
    rw [googleLoop_retry (fun _ => .err msg429) (fun _ => (0 : ℚ)) 2 1 msg429
      rfl (by rfl) (by norm_num [MAX_RETRIES])]
    rw [googleLoop_retry (fun _ => .err msg429) (fun _ => (0 : ℚ)) 1 2 msg429
      rfl (by rfl) (by norm_num [MAX_RETRIES])]
    rw [googleLoop_throw (fun _ => .err msg429) (fun _ => (0 : ℚ)) 0 3 msg429
      rfl (by norm_num [MAX_RETRIES])]
    rw [show parseRetryDelay msg429 = none from rfl]
    norm_num
  refine ⟨hrun, ?_⟩
  rw [hrun]
  intro h
  injection h with h2
  exact Thrown.noConfusion h2

/-- C4 (amended): when all three attempts fail with rate-limit-class
errors, the call makes no further attempt and propagates the *third
attempt's underlying rate-limit error*; the dedicated exhausted-retries
error (`Exceeded max retries`) is dead code — no run of the loop can reach
it. -/
theorem C4_third_failure_rethrows :
    (∀ (o : ℕ → Outcome) (j : ℕ → ℚ) (m1 m2 m3 : List Char),
      attemptBody (o 1) = .error m1 → isRateLimitError m1 = true →
      attemptBody (o 2) = .error m2 → isRateLimitError m2 = true →
      attemptBody (o 3) = .error m3 → isRateLimitError m3 = true →
      (getGoogleAIAction o j).result = .thrown (.fromAttempt m3) ∧
      (getGoogleAIAction o j).attempts = 3) ∧
    (∀ (o : ℕ → Outcome) (j : ℕ → ℚ),
      (getGoogleAIAction o j).result ≠ .thrown .exceededMax) := by
  constructor
  · intro o j m1 m2 m3 h1 hrl1 h2 hrl2 h3 hrl3
    unfold getGoogleAIAction
    rw [show (MAX_RETRIES : ℕ) = 2 + 1 from rfl]
    rw [googleLoop_retry o j 2 1 m1 h1 hrl1 (by norm_num [MAX_RETRIES])]
    dsimp only
    rw [googleLoop_retry o j 1 2 m2 h2 hrl2 (by norm_num [MAX_RETRIES])]
    dsimp only
    rw [googleLoop_throw o j 0 3 m3 h3 (by norm_num [MAX_RETRIES])]
    exact ⟨rfl, rfl⟩
  · intro o j
    unfold getGoogleAIAction
    rw [show (MAX_RETRIES : ℕ) = 2 + 1 from rfl]
    rcases hb1 : attemptBody (o 1) with m1 | jv1
    · by_cases hc1 : isRateLimitError m1 = true ∧ 1 < MAX_RETRIES
      · rw [googleLoop_retry o j 2 1 m1 hb1 hc1.1 hc1.2]
        dsimp only
        rcases hb2 : attemptBody (o 2) with m2 | jv2
        · by_cases hc2 : isRateLimitError m2 = true ∧ 2 < MAX_RETRIES
          · rw [googleLoop_retry o j 1 2 m2 hb2 hc2.1 hc2.2]
            dsimp only
            rcases hb3 : attemptBody (o 3) with m3 | jv3
            · rw [googleLoop_throw o j 0 3 m3 hb3 (by norm_num [MAX_RETRIES])]
              intro h
              injection h with h2
              exact Thrown.noConfusion h2
            · rw [googleLoop_ok o j 0 3 jv3 hb3]
              intro h
              exact CallResult.noConfusion h
          · rw [googleLoop_throw o j 1 2 m2 hb2 hc2]
            intro h
            injection h with h2
            exact Thrown.noConfusion h2
        · rw [googleLoop_ok o j 1 2 jv2 hb2]
          intro h
          exact CallResult.noConfusion h
      · rw [googleLoop_throw o j 2 1 m1 hb1 hc1]
        intro h
        injection h with h2
        exact Thrown.noConfusion h2
    · rw [googleLoop_ok o j 2 1 jv1 hb1]
      intro h
      exact CallResult.noConfusion h

/-- Witness for C4 (amended): the concrete three-429 run. -/
theorem C4_third_failure_rethrows_witness :
    (getGoogleAIAction (fun _ => .err msg429) (fun _ => 0)).result =
      .thrown (.fromAttempt msg429) ∧
    (getGoogleAIAction (fun _ => .err msg429) (fun _ => 0)).attempts = 3 :=
  C4_third_failure_rethrows.1 (fun _ => .err msg429) (fun _ => 0)
    msg429 msg429 msg429 rfl (by rfl) rfl (by rfl) rfl (by rfl)

set_option maxRecDepth 10000 in
/-- C6: after a rate-limited attempt 1 the wait is
`max 500 (base + jitter)` with base the server-suggested delay in
milliseconds when `parseRetryDelay` finds one in the payload, else 2000 ms;
after a failed (rate-limited) attempt `n ≥ 2` the base is `2^n * 1000` ms;
every wait is floored at 500 ms; and `parseRetryDelay` converts a payload
carrying `"27s"` to 27000 ms while a payload with no JSON yields none.
The jitter oracle `j` stands for the draws of
`(Math.random() - 0.5) * 1000`, each of which lies in `[-500, 500)`. -/
theorem C6_wait_schedule :
    (∀ (o : ℕ → Outcome) (j : ℕ → ℚ) (m : List Char),
      attemptBody (o 1) = .error m → isRateLimitError m = true →
      (getGoogleAIAction o j).waits.head? =
        some (max 500 ((parseRetryDelay m).getD 2000 + j 1))) ∧
    (∀ (o : ℕ → Outcome) (j : ℕ → ℚ) (m1 m2 : List Char),
      attemptBody (o 1) = .error m1 → isRateLimitError m1 = true →
      attemptBody (o 2) = .error m2 → isRateLimitError m2 = true →
      (getGoogleAIAction o j).waits =
        [max 500 ((parseRetryDelay m1).getD 2000 + j 1),
         max 500 ((2 : ℚ) ^ 2 * 1000 + j 2)]) ∧
    (∀ (o : ℕ → Outcome) (j : ℕ → ℚ) (w : ℚ),
      w ∈ (getGoogleAIAction o j).waits → 500 ≤ w) ∧
    parseRetryDelay sampleRetryMsg = some 27000 ∧
    parseRetryDelay msg429 = none := by
  refine ⟨?_, ?_, ?_, ?_, rfl⟩
  · intro o j m h1 hrl
    unfold getGoogleAIAction
    rw [show (MAX_RETRIES : ℕ) = 2 + 1 from rfl]
    rw [googleLoop_retry o j 2 1 m h1 hrl (by norm_num [MAX_RETRIES])]
    simp
  · intro o j m1 m2 h1 hrl1 h2 hrl2
    unfold getGoogleAIAction
    rw [show (MAX_RETRIES : ℕ) = 2 + 1 from rfl]
    rw [googleLoop_retry o j 2 1 m1 h1 hrl1 (by norm_num [MAX_RETRIES])]
    dsimp only
    rw [googleLoop_retry o j 1 2 m2 h2 hrl2 (by norm_num [MAX_RETRIES])]
    dsimp only
    rw [googleLoop_waits_at3 o j 1]
    simp
  · intro o j w hw
    exact googleLoop_waits_floor o j MAX_RETRIES 1 w hw
  · have h : parseRetryDelay sampleRetryMsg = some ((27 : ℚ) * 1000) := by rfl
    rw [h]
    norm_num

/-- Witness for C6: the concrete three-429 run sleeps exactly the default
2000 ms and the exponential 4000 ms. -/
theorem C6_wait_schedule_witness :
    (getGoogleAIAction (fun _ => .err msg429) (fun _ => 0)).waits =
      [max 500 ((parseRetryDelay msg429).getD 2000 + 0),
       max 500 ((2 : ℚ) ^ 2 * 1000 + 0)] :=
  C6_wait_schedule.2.1 (fun _ => .err msg429) (fun _ => 0) msg429 msg429
    rfl (by rfl) rfl (by rfl)

/-! ### Sanitizer lemmas (C7 machinery) -/

theorem splitAtSub_none_no_occurrence (p : List Char) :
    ∀ s, splitAtSub p s = none → ∀ z, z <:+ s → ¬ p.isPrefixOf z := by
  intro s
  induction s with
  | nil =>
    intro h z hz
    rw [List.suffix_nil.mp hz]
    unfold splitAtSub at h
    intro hp
    cases hp2 : p with
    | nil => simp [hp2] at h
    | cons c t => rw [hp2] at hp; exact absurd hp (by simp [List.isPrefixOf])
  | cons c t ih =>
    intro h z hz
    unfold splitAtSub at h
    by_cases hpre : p.isPrefixOf (c :: t)
    · simp [hpre] at h
    · rcases List.suffix_cons_iff.mp hz with rfl | hz2
      · exact fun hp => hpre hp
      · rw [if_neg hpre] at h
        rcases hsp : splitAtSub p t with _ | pr
        · exact ih hsp z hz2
        · rw [hsp] at h
          simp at h

theorem splitAtSub_none_of_no_occurrence (p : List Char) (hp : p ≠ []) :
    ∀ s, (∀ z, z <:+ s → ¬ p.isPrefixOf z) → splitAtSub p s = none := by
  intro s
  induction s with
  | nil =>
    intro h
    unfold splitAtSub
    simp [hp]
  | cons c t ih =>
    intro h
    unfold splitAtSub
    rw [if_neg (h (c :: t) (List.suffix_refl _))]
    rw [ih (fun z hz => h z (hz.trans (List.suffix_cons c t)))]

theorem containsSub_false_iff (p : List Char) (s : List Char) (hp : p ≠ []) :
    containsSub p s = false ↔ ∀ z, z <:+ s → ¬ p.isPrefixOf z := by
  constructor
  · intro h z hz
    unfold containsSub at h
    rcases hsp : splitAtSub p s with _ | pr
    · exact splitAtSub_none_no_occurrence p s hsp z hz
    · rw [hsp] at h; simp at h
  · intro h
    unfold containsSub
    rw [splitAtSub_none_of_no_occurrence p hp s h]
    rfl

theorem splitAtSub_of_isPrefix (p s : List Char) (hp : p ≠ [])
    (h : p.isPrefixOf s) : splitAtSub p s = some ([], s.drop p.length) := by
  cases s with
  | nil =>
    exfalso
    rcases p with _ | ⟨c, t⟩
    · exact hp rfl
    · simp [List.isPrefixOf] at h
  | cons c t =>
    unfold splitAtSub
    rw [if_pos h]

theorem splitAtSub_first (p : List Char) (hp : p ≠ []) :
    ∀ (X Y : List Char),
      (∀ z, z <:+ X → z ≠ [] → ¬ p.isPrefixOf (z ++ (p ++ Y))) →
      splitAtSub p (X ++ (p ++ Y)) = some (X, Y) := by
  intro X
  induction X with
  | nil =>
    intro Y _
    rw [List.nil_append]
    rw [splitAtSub_of_isPrefix p (p ++ Y) hp
      (List.isPrefixOf_iff_prefix.mpr (List.prefix_append p Y))]
    simp
  | cons c t ih =>
    intro Y h
    rw [List.cons_append]
    unfold splitAtSub
    rw [if_neg ?hne]
    case hne =>
      have := h (c :: t) (List.suffix_refl _) (by simp)
      simpa using this
    rw [ih Y (fun z hz hne => h z (hz.trans (List.suffix_cons c t)) hne)]

theorem jsTrim_eq_self (s : List Char) (a b : Char)
    (hh : s.head? = some a) (ha : isJsWs a = false)
    (hl : s.getLast? = some b) (hb : isJsWs b = false) :
    jsTrim s = s := by
  unfold jsTrim
  have h1 : s.dropWhile isJsWs = s := by
    cases s with
    | nil => rfl
    | cons c t =>
      simp only [List.head?_cons, Option.some.injEq] at hh
      subst hh
      simp [List.dropWhile_cons, ha]
  rw [h1]
  have h2 : s.reverse.dropWhile isJsWs = s.reverse := by
    cases hr : s.reverse with
    | nil => rfl
    | cons c t =>
      have : s.reverse.head? = some b := by rw [List.head?_reverse]; exact hl
      rw [hr] at this
      simp only [List.head?_cons, Option.some.injEq] at this
      subst this
      simp [List.dropWhile_cons, hb]
  rw [h2, List.reverse_reverse]

theorem removeThinkFuel_eq_self (s : List Char)
    (h : splitAtSub thinkOpen s = none) :
    ∀ fuel, removeThinkFuel fuel s = s := by
  intro fuel
  cases fuel with
  | zero => rfl
  | succ fuel =>
    unfold removeThinkFuel
    rw [h]

theorem removeThink_eq_self (s : List Char)
    (h : containsSub thinkOpen s = false) : removeThink s = s := by
  unfold removeThink
  refine removeThinkFuel_eq_self s ?_ s.length
  unfold containsSub at h
  rcases hsp : splitAtSub thinkOpen s with _ | pr
  · rfl
  · rw [hsp] at h; simp at h

theorem prefix_of_append_of_le (p Z R : List Char) (h : p <+: Z ++ R)
    (hl : p.length ≤ Z.length) : p <+: Z := by
  rw [List.prefix_iff_eq_take] at h ⊢
  rw [h]
  rw [List.take_append_eq_append_take]
  rw [Nat.sub_eq_zero_of_le hl]
  simp [List.length_take, Nat.min_eq_left hl]

theorem suffix_concat_char (z Y : List Char) (c : Char)
    (h : z <:+ Y ++ [c]) (hne : z ≠ []) :
    ∃ z0, z0 <:+ Y ∧ z = z0 ++ [c] := by
  have h2 : z.reverse <+: c :: Y.reverse := by
    have h3 := List.reverse_prefix.mpr h
    simpa using h3
  rcases hzr : z.reverse with _ | ⟨z0, zr⟩
  · exact absurd (by simpa using congrArg List.reverse hzr) hne
  · rw [hzr] at h2
    obtain ⟨rfl, hzr2⟩ := List.cons_prefix_cons.mp h2
    refine ⟨zr.reverse, ?_, ?_⟩
    · rw [← List.reverse_prefix]
      simpa using hzr2
    · have := congrArg List.reverse hzr
      simpa using this

theorem no_triple_in_wrapped (s : List Char)
    (h3 : containsSub tripleTick s = false) :
    ∀ z, z <:+ ('\n' :: s) ++ ['\n'] → z ≠ [] →
      ¬ tripleTick.isPrefixOf (z ++ (tripleTick ++ [])) := by
  intro z hz hne hpre
  rw [List.isPrefixOf_iff_prefix] at hpre
  obtain ⟨z0, hz0, rfl⟩ := suffix_concat_char z ('\n' :: s) '\n' hz hne
  have hno : ∀ w, w <:+ s → ¬ tripleTick.isPrefixOf w :=
    (containsSub_false_iff tripleTick s (by decide)).mp h3
  rcases z0 with _ | ⟨a, z1⟩
  · simp only [List.nil_append, List.cons_append] at hpre
    have hpre2 : '`' :: '`' :: ['`'] <+: '\n' :: (tripleTick ++ []) := by
      simpa [tripleTick] using hpre
    obtain ⟨hc, _⟩ := List.cons_prefix_cons.mp hpre2
    exact absurd hc (by decide)
  · rcases z1 with _ | ⟨b, z2⟩
    · simp only [List.cons_append, List.nil_append] at hpre
      have hpre2 : '`' :: '`' :: ['`'] <+:
          a :: '\n' :: (tripleTick ++ []) := by simpa [tripleTick] using hpre
      obtain ⟨_, h2⟩ := List.cons_prefix_cons.mp hpre2
      obtain ⟨hc, _⟩ := List.cons_prefix_cons.mp h2
      exact absurd hc (by decide)
    · have hpre2 : '`' :: '`' :: ['`'] <+:
          a :: b :: ((z2 ++ ['\n']) ++ (tripleTick ++ [])) := by
        simpa [tripleTick, List.cons_append, List.append_assoc] using hpre
      obtain ⟨ha, h2⟩ := List.cons_prefix_cons.mp hpre2
      obtain ⟨hb, h3b⟩ := List.cons_prefix_cons.mp h2
      rcases z2 with _ | ⟨r, rs⟩
      · simp only [List.nil_append, List.cons_append] at h3b
        obtain ⟨hc, _⟩ := List.cons_prefix_cons.mp h3b
        exact absurd hc (by decide)
      · have h3c : ['`'] <+: r :: ((rs ++ ['\n']) ++ (tripleTick ++ [])) := by
          simpa [List.cons_append, List.append_assoc] using h3b
        obtain ⟨hr, _⟩ := List.cons_prefix_cons.mp h3c
        have htrip : tripleTick.isPrefixOf (a :: b :: r :: rs) := by
          rw [List.isPrefixOf_iff_prefix]
          rw [show tripleTick = ['`', '`', '`'] from rfl, ← ha, ← hb, ← hr]
          exact List.cons_prefix_cons.mpr ⟨rfl,
            List.cons_prefix_cons.mpr ⟨rfl,
              List.cons_prefix_cons.mpr ⟨rfl, List.nil_prefix⟩⟩⟩
        rcases List.suffix_cons_iff.mp hz0 with heq | hsuf
        · have : a = '\n' := by
            have := congrArg List.head? heq
            simpa using this
          rw [this] at ha
          exact absurd ha (by decide)
        · exact hno _ hsuf htrip

theorem dropWhile_ws_of_head_open (s : List Char) (hh : s.head? = some '{') :
    ∀ R, List.dropWhile isJsWs (s ++ R) = s ++ R := by
  intro R
  cases s with
  | nil => simp at hh
  | cons c t =>
    simp only [List.head?_cons, Option.some.injEq] at hh
    subst hh
    rw [List.cons_append, List.dropWhile_cons, if_neg (by decide)]

theorem jsTrim_wrapped (s : List Char) (hh : s.head? = some '{')
    (hl : s.getLast? = some '}') :
    jsTrim (('\n' :: s) ++ ['\n']) = s := by
  unfold jsTrim
  have h1 : List.dropWhile isJsWs (('\n' :: s) ++ ['\n']) = s ++ ['\n'] := by
    rw [List.cons_append, List.dropWhile_cons]
    simp only [show isJsWs '\n' = true from rfl, if_true]
    exact dropWhile_ws_of_head_open s hh ['\n']
  rw [h1]
  have h2 : (s ++ ['\n']).reverse = '\n' :: s.reverse := by simp
  rw [h2, List.dropWhile_cons]
  simp only [show isJsWs '\n' = true from rfl, if_true]
  have h3 : List.dropWhile isJsWs s.reverse = s.reverse := by
    cases hr : s.reverse with
    | nil => rfl
    | cons c t =>
      have hc : s.reverse.head? = some '}' := by
        rw [List.head?_reverse]; exact hl
      rw [hr] at hc
      simp only [List.head?_cons, Option.some.injEq] at hc
      subst hc
      rw [List.dropWhile_cons, if_neg (by decide)]
  rw [h3, List.reverse_reverse]

theorem extractFence_fenceWrap (s : List Char)
    (h3 : containsSub tripleTick s = false)
    (hh : s.head? = some '{') (hl : s.getLast? = some '}') :
    extractFence (fenceWrap s) = some s := by
  have hsne : s ≠ [] := by intro h; rw [h] at hh; simp at hh
  have hF : fenceWrap s =
      tripleTick ++ (['j', 's', 'o', 'n', '\n'] ++ (s ++ ('\n' :: tripleTick))) := by
    rfl
  unfold extractFence
  rw [hF]
  rw [splitAtSub_of_isPrefix tripleTick _ (by decide)
    (List.isPrefixOf_iff_prefix.mpr (List.prefix_append tripleTick _))]
  dsimp only
  have hdrop : (tripleTick ++ (['j', 's', 'o', 'n', '\n'] ++
      (s ++ ('\n' :: tripleTick)))).drop tripleTick.length =
      ['j', 's', 'o', 'n', '\n'] ++ (s ++ ('\n' :: tripleTick)) := by
    rw [show tripleTick.length = tripleTick.length from rfl]
    exact List.drop_left tripleTick _
  rw [hdrop]
  have hjson : jsonTag.isPrefixOf
      (['j', 's', 'o', 'n', '\n'] ++ (s ++ ('\n' :: tripleTick))) = true := rfl
  rw [hjson]
  rw [if_pos rfl]
  have hdrop4 : (['j', 's', 'o', 'n', '\n'] ++
      (s ++ ('\n' :: tripleTick))).drop 4 = '\n' :: (s ++ ('\n' :: tripleTick)) := rfl
  rw [hdrop4]
  have harr : '\n' :: (s ++ ('\n' :: tripleTick)) =
      (('\n' :: s) ++ ['\n']) ++ (tripleTick ++ []) := by
    simp
  rw [harr]
  rw [splitAtSub_first tripleTick (by decide) (('\n' :: s) ++ ['\n']) []
    (no_triple_in_wrapped s h3)]
  dsimp only
  rw [jsTrim_wrapped s hh hl]
  simp [hsne]

theorem stripTCFuel_cons_other (fuel : ℕ) (c : Char) (rest : List Char)
    (hc : ¬ c = ',') :
    stripTCFuel (fuel + 1) (c :: rest) = c :: stripTCFuel fuel rest := by
  simp only [stripTCFuel]
  rw [if_neg hc]

theorem stripTCFuel_comma_bracket (fuel : ℕ) (rest : List Char) (b : Char)
    (rest2 : List Char) (h : rest.dropWhile isJsWs = b :: rest2)
    (hb : (b = '}' || b = ']') = true) :
    stripTCFuel (fuel + 1) (',' :: rest) = b :: stripTCFuel fuel rest2 := by
  simp only [stripTCFuel]
  rw [if_pos trivial, h]
  dsimp only
  rw [hb]
  rfl

theorem stripTCFuel_comma_nil (fuel : ℕ) (rest : List Char)
    (h : rest.dropWhile isJsWs = []) :
    stripTCFuel (fuel + 1) (',' :: rest) = ',' :: stripTCFuel fuel rest := by
  simp only [stripTCFuel]
  rw [if_pos trivial, h]

theorem stripTCFuel_comma_nb (fuel : ℕ) (rest : List Char) (b : Char)
    (rest2 : List Char) (h : rest.dropWhile isJsWs = b :: rest2)
    (hb : (b = '}' || b = ']') = false) :
    stripTCFuel (fuel + 1) (',' :: rest) = ',' :: stripTCFuel fuel rest := by
  simp only [stripTCFuel]
  rw [if_pos trivial, h]
  dsimp only
  rw [hb]
  rfl

theorem dropWhile_tail_length_le (rest : List Char) (b : Char)
    (rest2 : List Char) (h : rest.dropWhile isJsWs = b :: rest2) :
    rest2.length < rest.length := by
  have h1 : (rest.dropWhile isJsWs).length ≤ rest.length :=
    (List.dropWhile_sublist isJsWs).length_le
  rw [h] at h1
  simp at h1
  omega

theorem stripTCFuel_congr : ∀ (f1 : ℕ) (s : List Char) (f2 : ℕ),
    s.length ≤ f1 → s.length ≤ f2 → stripTCFuel f1 s = stripTCFuel f2 s := by
  intro f1
  induction f1 with
  | zero =>
    intro s f2 h1 _
    have hs : s = [] := List.eq_nil_of_length_eq_zero (Nat.le_zero.mp h1)
    subst hs
    cases f2 <;> rfl
  | succ f1 ih =>
    intro s f2 h1 h2
    cases s with
    | nil => cases f2 <;> rfl
    | cons c rest =>
      obtain ⟨f2', rfl⟩ : ∃ f2', f2 = f2' + 1 := by
        cases f2 with
        | zero => simp at h2
        | succ k => exact ⟨k, rfl⟩
      simp only [List.length_cons] at h1 h2
      by_cases hc : c = ','
      · subst hc
        rcases hd : rest.dropWhile isJsWs with _ | ⟨b, rest2⟩
        · rw [stripTCFuel_comma_nil f1 rest hd,
            stripTCFuel_comma_nil f2' rest hd,
            ih rest f2' (by omega) (by omega)]
        · by_cases hb : (b = '}' || b = ']') = true
          · have hlt := dropWhile_tail_length_le rest b rest2 hd
            rw [stripTCFuel_comma_bracket f1 rest b rest2 hd hb,
              stripTCFuel_comma_bracket f2' rest b rest2 hd hb,
              ih rest2 f2' (by omega) (by omega)]
          · have hb' : (b = '}' || b = ']') = false := by simpa using hb
            rw [stripTCFuel_comma_nb f1 rest b rest2 hd hb',
              stripTCFuel_comma_nb f2' rest b rest2 hd hb',
              ih rest f2' (by omega) (by omega)]
      · rw [stripTCFuel_cons_other f1 c rest hc,
          stripTCFuel_cons_other f2' c rest hc,
          ih rest f2' (by omega) (by omega)]

theorem stripTCFuel_insert : ∀ (A B : List Char) (fuel : ℕ),
    (A ++ ',' :: '}' :: B).length ≤ fuel →
    stripTrailingCommas (A ++ '}' :: B) = A ++ '}' :: B →
    stripTCFuel fuel (A ++ ',' :: '}' :: B) = A ++ '}' :: B := by
  intro A
  induction A with
  | nil =>
    intro B fuel hf hW
    simp only [List.nil_append, List.length_cons] at hf
    obtain ⟨f, rfl⟩ : ∃ f, fuel = f + 1 := by
      cases fuel with
      | zero => omega
      | succ k => exact ⟨k, rfl⟩
    simp only [List.nil_append] at hW ⊢
    have hd : ('}' :: B).dropWhile isJsWs = '}' :: B := by
      rw [List.dropWhile_cons, if_neg (by decide)]
    rw [stripTCFuel_comma_bracket f ('}' :: B) '}' B hd (by decide)]
    unfold stripTrailingCommas at hW
    rw [show ('}' :: B).length = B.length + 1 from rfl] at hW
    rw [stripTCFuel_cons_other B.length '}' B (by decide)] at hW
    have hB : stripTCFuel B.length B = B := by
      simpa using hW
    rw [stripTCFuel_congr f B B.length (by omega) (le_refl _), hB]
  | cons c A' ih =>
    intro B fuel hf hW
    simp only [List.cons_append, List.length_cons] at hf hW ⊢
    obtain ⟨f, rfl⟩ : ∃ f, fuel = f + 1 := by
      cases fuel with
      | zero => omega
      | succ k => exact ⟨k, rfl⟩
    unfold stripTrailingCommas at hW
    rw [show (c :: (A' ++ '}' :: B)).length =
      (A' ++ '}' :: B).length + 1 from rfl] at hW
    by_cases hc : c = ','
    · subst hc
      rcases hd : (A' ++ '}' :: B).dropWhile isJsWs with _ | ⟨b, rest2⟩
      · exfalso
        have hmem : ('}' : Char) ∈ A' ++ '}' :: B := by simp
        have := List.dropWhile_eq_nil_iff.mp hd
        have h2 := this '}' hmem
        simp [isJsWs] at h2
      · by_cases hb : (b = '}' || b = ']') = true
        · exfalso
          rw [stripTCFuel_comma_bracket (A' ++ '}' :: B).length
            (A' ++ '}' :: B) b rest2 hd hb] at hW
          have hb2 : b = ',' := by
            have := congrArg List.head? hW
            simpa using this
          subst hb2
          simp at hb
        · have hb' : (b = '}' || b = ']') = false := by simpa using hb
          rw [stripTCFuel_comma_nb (A' ++ '}' :: B).length
            (A' ++ '}' :: B) b rest2 hd hb'] at hW
          have hT : stripTCFuel (A' ++ '}' :: B).length (A' ++ '}' :: B) =
              A' ++ '}' :: B := by simpa using hW
          have hA'ne : (A'.dropWhile isJsWs).isEmpty = false := by
            rcases hA'd : (A'.dropWhile isJsWs).isEmpty with _ | _
            · rfl
            · exfalso
              rw [List.dropWhile_append, hA'd] at hd
              simp only [if_true] at hd
              rw [List.dropWhile_cons, if_neg (by decide)] at hd
              have hb2 : b = '}' := by
                have h9 := congrArg List.head? hd
                simp only [List.head?_cons, Option.some.injEq] at h9
                exact h9.symm
              subst hb2
              simp at hb'
          have hdA : (A' ++ ',' :: '}' :: B).dropWhile isJsWs =
              A'.dropWhile isJsWs ++ ',' :: '}' :: B := by
            rw [List.dropWhile_append, hA'ne]
            simp
          rcases hA'd2 : A'.dropWhile isJsWs with _ | ⟨d, ds⟩
          · rw [hA'd2] at hA'ne
            simp at hA'ne
          · have hdb : d = b := by
              rw [List.dropWhile_append, hA'ne] at hd
              rw [if_neg (by decide)] at hd
              rw [hA'd2] at hd
              have h9 := congrArg List.head? hd
              simpa using h9
            rw [hA'd2] at hdA
            rw [stripTCFuel_comma_nb f (A' ++ ',' :: '}' :: B) d
              (ds ++ ',' :: '}' :: B) (by rw [hdA]; rfl)
              (by rw [hdb]; exact hb')]
            have hWfold : stripTrailingCommas (A' ++ '}' :: B) =
                A' ++ '}' :: B := by
              unfold stripTrailingCommas
              exact hT
            rw [ih B f (by omega) hWfold]
    · rw [stripTCFuel_cons_other (A' ++ '}' :: B).length c
        (A' ++ '}' :: B) hc] at hW
      have hT : stripTCFuel (A' ++ '}' :: B).length (A' ++ '}' :: B) =
          A' ++ '}' :: B := by simpa using hW
      rw [stripTCFuel_cons_other f c (A' ++ ',' :: '}' :: B) hc]
      have hWfold : stripTrailingCommas (A' ++ '}' :: B) =
          A' ++ '}' :: B := by
        unfold stripTrailingCommas
        exact hT
      rw [ih B f (by omega) hWfold]

theorem stripTrailingCommas_insert (A B : List Char)
    (hW : stripTrailingCommas (A ++ '}' :: B) = A ++ '}' :: B) :
    stripTrailingCommas (A ++ ',' :: '}' :: B) = A ++ '}' :: B := by
  unfold stripTrailingCommas
  exact stripTCFuel_insert A B (A ++ ',' :: '}' :: B).length (le_refl _) hW
theorem findIdx?_head (c : Char) (t : List Char) (p : Char → Bool)
    (hp : p c = true) : List.findIdx? p (c :: t) = some 0 := by
  simp [List.findIdx?_cons, hp]

theorem extractBraces_eq_self (s : List Char)
    (hh : s.head? = some '{') (hl : s.getLast? = some '}')
    (hlen : 2 ≤ s.length) :
    extractBraces s = s := by
  obtain ⟨t, rfl⟩ : ∃ t, s = '{' :: t := by
    cases s with
    | nil => simp at hh
    | cons c t =>
      simp only [List.head?_cons, Option.some.injEq] at hh
      exact ⟨t, by rw [hh]⟩
  have hf : List.findIdx? (fun c => c = '{') ('{' :: t) = some 0 :=
    findIdx?_head '{' t _ (by decide)
  obtain ⟨r, hr⟩ : ∃ r, ('{' :: t).reverse = '}' :: r := by
    rcases hrev : ('{' :: t).reverse with _ | ⟨c, r⟩
    · exact absurd (congrArg List.length hrev) (by simp)
    · have hc : ('{' :: t).reverse.head? = some '}' := by
        rw [List.head?_reverse]; exact hl
      rw [hrev] at hc
      simp only [List.head?_cons, Option.some.injEq] at hc
      subst hc
      exact ⟨r, rfl⟩
  have hg : List.findIdx? (fun c => c = '}') ('{' :: t).reverse = some 0 := by
    rw [hr]
    exact findIdx?_head '}' r _ (by decide)
  unfold extractBraces
  rw [hf, hg]
  dsimp only
  rw [if_pos (by simp at hlen ⊢; omega)]
  have h1 : ('{' :: t).length - 1 - 0 - 0 + 1 = ('{' :: t).length := by
    simp
  rw [List.drop_zero, h1, List.take_length]

theorem extractFence_none (s : List Char)
    (h3 : containsSub tripleTick s = false) : extractFence s = none := by
  have hsp : splitAtSub tripleTick s = none := by
    unfold containsSub at h3
    rcases h : splitAtSub tripleTick s with _ | pr
    · rfl
    · rw [h] at h3; simp at h3
  unfold extractFence
  rw [hsp]

theorem fenceWrap_head (s : List Char) : (fenceWrap s).head? = some '`' := rfl

theorem fenceWrap_getLast (s : List Char) :
    (fenceWrap s).getLast? = some '`' := by
  show (String.toList "```json\n" ++ s ++
    ('\n' :: ['`', '`', '`'])).getLast? = some '`'
  rw [List.getLast?_append_cons]
  rfl

theorem cleanAndParseJson_fenceWrap (s : List Char)
    (hth : containsSub thinkOpen (fenceWrap s) = false)
    (h3 : containsSub tripleTick s = false)
    (hh : s.head? = some '{') (hl : s.getLast? = some '}') :
    cleanAndParseJson (fenceWrap s) = parseJson (stripTrailingCommas s) := by
  have hj1 : jsTrim (fenceWrap s) = fenceWrap s :=
    jsTrim_eq_self _ '`' '`' (fenceWrap_head s) (by decide)
      (fenceWrap_getLast s) (by decide)
  simp only [cleanAndParseJson]
  rw [hj1, removeThink_eq_self _ hth, hj1, extractFence_fenceWrap s h3 hh hl]

theorem cleanAndParseJson_plain (s : List Char)
    (hth : containsSub thinkOpen s = false)
    (h3 : containsSub tripleTick s = false)
    (hh : s.head? = some '{') (hl : s.getLast? = some '}')
    (hlen : 2 ≤ s.length) :
    cleanAndParseJson s = parseJson (stripTrailingCommas s) := by
  have hj1 : jsTrim s = s :=
    jsTrim_eq_self s '{' '}' hh (by decide) hl (by decide)
  simp only [cleanAndParseJson]
  rw [hj1, removeThink_eq_self _ hth, hj1, extractFence_none s h3,
    extractBraces_eq_self s hh hl hlen]
/-- C7 (counterexample): the claimed round-trip fails on a well-formed
Stratagem document whose `justification` string contains a fence marker:
the plain document parses (action type `HOLD`), but once a trailing comma
is inserted and the document is fence-wrapped, the lazy fence regex
captures only up to the marker inside the string, and the truncated
fragment no longer parses. -/
theorem C7_counterexample :
    actionTypeOf wBad = some (.str (String.toList "HOLD")) ∧
    cleanAndParseJson (fenceWrap wBadComma) = none := by
  exact ⟨rfl, rfl⟩

/-- C7 (amended): for every well-formed brace-delimited document that
contains no fence marker and no `<think>` opener (also after wrapping) and
is itself free of trailing-comma patterns, inserting a trailing comma
before a closing brace and wrapping in a ```json fence parses to the same
value as the plain document; in particular scenario 4's fenced payload with
a trailing comma before the two closing braces parses like its plain
well-formed counterpart, with action type `HOLD`. -/
theorem C7_fence_roundtrip (A B : List Char)
    (hth1 : containsSub thinkOpen (fenceWrap (A ++ ',' :: '}' :: B)) = false)
    (hth2 : containsSub thinkOpen (A ++ '}' :: B) = false)
    (h3c : containsSub tripleTick (A ++ ',' :: '}' :: B) = false)
    (h3w : containsSub tripleTick (A ++ '}' :: B) = false)
    (hh : (A ++ '}' :: B).head? = some '{')
    (hl : (A ++ '}' :: B).getLast? = some '}')
    (hfix : stripTrailingCommas (A ++ '}' :: B) = A ++ '}' :: B) :
    cleanAndParseJson (fenceWrap (A ++ ',' :: '}' :: B)) =
      cleanAndParseJson (A ++ '}' :: B) ∧
    cleanAndParseJson scen4 = cleanAndParseJson scen4plain ∧
    actionTypeOf scen4 = some (.str (String.toList "HOLD")) := by
  refine ⟨?_, rfl, rfl⟩
  obtain ⟨a, A', rfl⟩ : ∃ a A2, A = a :: A2 := by
    cases A with
    | nil => simp at hh
    | cons a t => exact ⟨a, t, rfl⟩
  have ha : a = '{' := by
    rw [List.cons_append, List.head?_cons] at hh
    simpa using hh
  subst ha
  have hhc : (('{' :: A') ++ ',' :: '}' :: B).head? = some '{' := rfl
  have hl2 : ('}' :: B).getLast? = some '}' := by
    rw [List.getLast?_append_cons] at hl
    exact hl
  have hlc : (('{' :: A') ++ ',' :: '}' :: B).getLast? = some '}' := by
    rw [List.getLast?_append_cons, List.getLast?_cons_cons]
    exact hl2
  have hlen : 2 ≤ (('{' :: A') ++ '}' :: B).length := by
    simp only [List.length_append, List.length_cons]
    omega
  rw [cleanAndParseJson_fenceWrap _ hth1 h3c hhc hlc,
    cleanAndParseJson_plain _ hth2 h3w hh hl hlen,
    stripTrailingCommas_insert ('{' :: A') B hfix, hfix]

/-- Witness for C7: scenario 4's own payload, split at the inserted comma,
satisfies every hypothesis, and the round-trip equation holds for it. -/
theorem C7_fence_roundtrip_witness :
    (containsSub thinkOpen
        (fenceWrap (scen4pre ++ ',' :: '}' :: scen4post)) = false ∧
      containsSub thinkOpen (scen4pre ++ '}' :: scen4post) = false ∧
      containsSub tripleTick
        (scen4pre ++ ',' :: '}' :: scen4post) = false ∧
      containsSub tripleTick (scen4pre ++ '}' :: scen4post) = false ∧
      (scen4pre ++ '}' :: scen4post).head? = some '{' ∧
      (scen4pre ++ '}' :: scen4post).getLast? = some '}' ∧
      stripTrailingCommas (scen4pre ++ '}' :: scen4post) =
        scen4pre ++ '}' :: scen4post) ∧
    (cleanAndParseJson (fenceWrap (scen4pre ++ ',' :: '}' :: scen4post)) =
        cleanAndParseJson (scen4pre ++ '}' :: scen4post) ∧
      cleanAndParseJson scen4 = cleanAndParseJson scen4plain ∧
      actionTypeOf scen4 = some (.str (String.toList "HOLD"))) :=
  ⟨⟨rfl, rfl, rfl, rfl, rfl, rfl, rfl⟩,
    C7_fence_roundtrip scen4pre scen4post rfl rfl rfl rfl rfl rfl rfl⟩
